import Mathlib

/-!
Verification of the chunked CSV aggregation engine of the forensics
report generator (src/utils.py, src/data_processor.py, src/config.py).

The Python source is shallowly embedded: pure fragments become Lean
functions, the mutable statistics dictionary becomes a `Stats` record
threaded through explicit update functions, Python `None` becomes
`Option`, CSV cell values are `Option String` (a polars null is `none`),
Python exceptions that the source catches become explicit control flow,
and Python floats produced by `float()` on decimal strings are modelled
exactly as rationals (`ℚ`); IEEE rounding is not modelled, which is
faithful for the magnitude comparisons the source performs on the small
decimal literals appearing here.
-/

/-! ## Naive datetimes (utils.py)

`datetime` values are naive timestamps.  Python compares them
field-lexicographically, which we model with a nested lexicographic
order on the (year, month, day, hour, minute, second) tuple. -/

structure DateTime where
  y : Nat
  mo : Nat
  d : Nat
  h : Nat
  mi : Nat
  s : Nat
deriving DecidableEq

/-- Lexicographic key of a datetime; Python's `datetime` comparison is
lexicographic in (year, month, day, hour, minute, second). -/
def DateTime.key (t : DateTime) : Lex (Nat × Lex (Nat × Lex (Nat × Lex (Nat × Lex (Nat × Nat))))) :=
  toLex (t.y, toLex (t.mo, toLex (t.d, toLex (t.h, toLex (t.mi, t.s)))))

def dtLe (a b : DateTime) : Prop := a.key ≤ b.key

instance (a b : DateTime) : Decidable (dtLe a b) := by
  unfold dtLe; infer_instance

/-- Number of days in a calendar month (Gregorian, as in Python's
`datetime`/`calendar` arithmetic). -/
def daysInMonth (y m : Nat) : Nat :=
  if m = 2 then
    if y % 4 = 0 ∧ (y % 100 ≠ 0 ∨ y % 400 = 0) then 29 else 28
  else if m = 4 ∨ m = 6 ∨ m = 9 ∨ m = 11 then 30
  else 31

/-- `datetime(year + 1, 1, 1)` / `datetime(year, month + 1, 1)`: the first
instant of the month after the month of `t` (utils.py lines 355-358,
363-365, 372-375). -/
def nextMonthStart (t : DateTime) : DateTime :=
  if t.mo = 12 then ⟨t.y + 1, 1, 1, 0, 0, 0⟩ else ⟨t.y, t.mo + 1, 1, 0, 0, 0⟩

/-- `t - timedelta(seconds=1)`: borrow chain of Python's datetime
arithmetic. -/
def predSecond (t : DateTime) : DateTime :=
  if t.s > 0 then { t with s := t.s - 1 }
  else if t.mi > 0 then { t with mi := t.mi - 1, s := 59 }
  else if t.h > 0 then { t with h := t.h - 1, mi := 59, s := 59 }
  else if t.d > 1 then { t with d := t.d - 1, h := 23, mi := 59, s := 59 }
  else if t.mo > 1 then ⟨t.y, t.mo - 1, daysInMonth t.y (t.mo - 1), 23, 59, 59⟩
  else ⟨t.y - 1, 12, 31, 23, 59, 59⟩

/-- The `while current_month <= end_date` loop of `get_complete_months`
(utils.py lines 360-377).  The loop strictly advances `current_month`, so
it is embedded with a fuel parameter; every theorem quantifies over the
fuel. -/
def monthsLoop (fuel : Nat) (current endD : DateTime) : List (DateTime × DateTime) :=
  match fuel with
  | 0 => []
  | fuel + 1 =>
    if dtLe current endD then
      let monthEnd := predSecond (nextMonthStart current)
      if dtLe monthEnd endD then
        (current, monthEnd) :: monthsLoop fuel (nextMonthStart current) endD
      else []
    else []

/-- Phase 1 of `get_complete_months` (utils.py lines 347-387, the path
with no file for phase-2 validation): the first candidate month starts at
`start_date` itself when its day is 1, otherwise at the first of the next
month. -/
def getCompleteMonths (fuel : Nat) (startD endD : DateTime) : List (DateTime × DateTime) :=
  let first := if startD.d = 1 then startD else nextMonthStart startD
  monthsLoop fuel first endD

/-! ## Month completeness validation (utils.py `validate_complete_months`)

The validator only ever compares parsed `Start Time` / `End Time`
datetimes with the month boundaries, so the naive-datetime timeline is
embedded as `Int` through any order isomorphism; a row of the projected
file is its pair of parsed timestamps, `none` when
`str.strptime(..., strict=False)` yields null. -/

abbrev MonthIv := Int × Int

abbrev RowTimes := Option Int × Option Int

/-- One row passes the overlap filter of the `month_attacks` query
(utils.py lines 460-468): both parses succeeded, `start_parsed <=
month_end` and `end_parsed >= month_start`. -/
def rowOverlaps (m : MonthIv) (r : RowTimes) : Bool :=
  match r with
  | (some st, some en) => decide (st ≤ m.2) && decide (en ≥ m.1)
  | _ => false

/-- One row is fully contained (utils.py lines 477-479): among the
overlapping rows, `start_parsed >= month_start` and
`end_parsed <= month_end`. -/
def rowContained (m : MonthIv) (r : RowTimes) : Bool :=
  match r with
  | (some st, some en) => decide (st ≥ m.1) && decide (en ≤ m.2)
  | _ => false

/-- The month is validated by the scan: some row both overlaps the month
and is fully contained in it (`contained_count > 0` on the filtered
frame, utils.py lines 471-492). -/
def monthHasContained (m : MonthIv) (rows : List RowTimes) : Bool :=
  rows.any (fun r => rowOverlaps m r && rowContained m r)

/-- The containment test in the words of the claim/spec alone: a
fully-contained event is one with `start ≥ month_start` and
`end ≤ month_end` (no overlap pre-filter).  Kept separate from
`monthHasContained` to compare the two. -/
def claimHasContained (m : MonthIv) (rows : List RowTimes) : Bool :=
  rows.any (fun r => rowContained m r)

/-- The `excluded_months` list: candidates are scanned in order and
excluded until the first one with a fully-contained attack, at which
point the loop breaks (utils.py lines 439-495). -/
def collectExcluded (rows : List RowTimes) : List MonthIv → List MonthIv
  | [] => []
  | m :: rest =>
    if monthHasContained m rows then [] else m :: collectExcluded rows rest

/-- Python's `list.remove`: delete the first occurrence of a value. -/
def removeFirst [DecidableEq α] : List α → α → List α
  | [], _ => []
  | x :: rest, a => if x = a then rest else x :: removeFirst rest a

/-- `validate_complete_months` (utils.py lines 390-514).  The whole scan
sits in one `try`; any exception while reading or projecting the file
falls back to returning `candidate_months` unchanged (lines 511-514),
modelled by the `Except` argument.  On success the excluded months are
removed from the copied candidate list by value
(`validated_months.remove(excluded_month)` guarded by membership,
lines 497-500). -/
def validateCompleteMonths (cands : List MonthIv) (scan : Except Unit (List RowTimes)) :
    List MonthIv :=
  if cands = [] then []
  else
    match scan with
    | .error _ => cands
    | .ok rows =>
      (collectExcluded rows cands).foldl
        (fun acc m => if m ∈ acc then removeFirst acc m else acc) cands

/-- The validator in the words of the claim: drop every candidate before
the first one containing a fully-contained event (in the claim's sense),
keep that one and everything after; empty if none qualifies. -/
def claimValidate (cands : List MonthIv) (rows : List RowTimes) : List MonthIv :=
  cands.dropWhile (fun m => !claimHasContained m rows)

/-! ## Date format detection (utils.py `detect_date_format`)

`config.py` sets `FORCE_DATE_FORMAT = None` and
`DATE_FORMATS = ['%d.%m.%Y %H:%M:%S', '%m.%d.%Y %H:%M:%S']`, so
auto-detection always runs over exactly these two candidate patterns.
`datetime.now()` used by the future-date penalty is passed in as an
explicit `now` argument. -/

def fmtDDMM : String := "%d.%m.%Y %H:%M:%S"

def fmtMMDD : String := "%m.%d.%Y %H:%M:%S"

def DATE_FORMATS : List String := [fmtDDMM, fmtMMDD]

def digitsVal (cs : List Char) : Nat :=
  cs.foldl (fun n c => 10 * n + (c.toNat - 48)) 0

/-- Python `str.strip()`: drop surrounding whitespace. -/
def pyStrip (s : String) : String :=
  String.mk (((s.data.dropWhile Char.isWhitespace).reverse.dropWhile Char.isWhitespace).reverse)

/-- `str.split(sep)` for a one-character separator (as a char-list
splitter; empty fields are kept, as in Python). -/
def splitOnChar (c : Char) : List Char → List (List Char)
  | [] => [[]]
  | x :: rest =>
    match splitOnChar c rest with
    | [] => if x = c then [[], []] else [[x]]
    | grp :: groups => if x = c then [] :: grp :: groups else (x :: grp) :: groups

/-- `str.split()` with no separator: the maximal nonempty runs of
non-whitespace characters. -/
def wsTokensAux : List Char → List Char → List (List Char)
  | [], acc => if acc = [] then [] else [acc.reverse]
  | x :: rest, acc =>
    if x.isWhitespace then
      if acc = [] then wsTokensAux rest [] else acc.reverse :: wsTokensAux rest []
    else wsTokensAux rest (x :: acc)

/-- Python `int(str)`: optional surrounding whitespace, optional sign,
one or more digits (digit-group underscores are not modelled; no source
input uses them). -/
def pyInt? (s : String) : Option Int :=
  match (pyStrip s).data with
  | [] => none
  | '+' :: rest =>
    if rest ≠ [] ∧ rest.all Char.isDigit then some (digitsVal rest : Nat) else none
  | '-' :: rest =>
    if rest ≠ [] ∧ rest.all Char.isDigit then some (-(digitsVal rest : Nat) : Int) else none
  | cs =>
    if cs.all Char.isDigit then some (digitsVal cs : Nat) else none

def readDigit1 (cs : List Char) : Option (Nat × List Char) :=
  match cs with
  | c1 :: rest => if c1.isDigit then some (digitsVal [c1], rest) else none
  | _ => none

def readDigit2 (cs : List Char) : Option (Nat × List Char) :=
  match cs with
  | c1 :: c2 :: rest =>
    if c1.isDigit ∧ c2.isDigit then some (digitsVal [c1, c2], rest) else none
  | _ => none

def readDigit4 (cs : List Char) : Option (Nat × List Char) :=
  match cs with
  | c1 :: c2 :: c3 :: c4 :: rest =>
    if c1.isDigit ∧ c2.isDigit ∧ c3.isDigit ∧ c4.isDigit then
      some (digitsVal [c1, c2, c3, c4], rest)
    else none
  | _ => none

/-- A 1-or-2-digit numeric `strptime` field restricted to `lo..hi`
(CPython compiles e.g. `%d` to the alternation `3[01]|[12]\d|0[1-9]|[1-9]`,
i.e. two digits when they form an in-range value, with regex backtracking
to one digit otherwise), in continuation style so that backtracking
reaches the rest of the pattern. -/
def fieldThen (lo hi : Nat) (cs : List Char) (k : Nat → List Char → Option DateTime) :
    Option DateTime :=
  (match readDigit2 cs with
   | some (v, rest) => if lo ≤ v ∧ v ≤ hi then k v rest else none
   | none => none) <|>
  (match readDigit1 cs with
   | some (v, rest) => if lo ≤ v ∧ v ≤ hi then k v rest else none
   | none => none)

def litThen (c : Char) (cs : List Char) (k : List Char → Option DateTime) :
    Option DateTime :=
  match cs with
  | x :: rest => if x = c then k rest else none
  | _ => none

/-- A whitespace character in a `strptime` format matches a nonempty run
of whitespace. -/
def wsThen (cs : List Char) (k : List Char → Option DateTime) : Option DateTime :=
  match cs with
  | x :: rest => if x.isWhitespace then k (rest.dropWhile Char.isWhitespace) else none
  | _ => none

/-- `datetime.strptime(s, fmt)` for the two configured dotted patterns
(`%d.%m.%Y %H:%M:%S` / `%m.%d.%Y %H:%M:%S`): the whole string must
match, `%Y` is exactly four digits, and the resulting field values must
form a valid datetime (`day` within the month, seconds below 60,
year ≥ 1), otherwise `ValueError` — here `none`. -/
def strptimeDotted (dayFirst : Bool) (s : String) : Option DateTime :=
  let lohi1 : Nat × Nat := if dayFirst then (1, 31) else (1, 12)
  let lohi2 : Nat × Nat := if dayFirst then (1, 12) else (1, 31)
  fieldThen lohi1.1 lohi1.2 s.data fun a r1 =>
  litThen '.' r1 fun r2 =>
  fieldThen lohi2.1 lohi2.2 r2 fun b r3 =>
  litThen '.' r3 fun r4 =>
  match readDigit4 r4 with
  | none => none
  | some (yv, r5) =>
    wsThen r5 fun r6 =>
    fieldThen 0 23 r6 fun hv r7 =>
    litThen ':' r7 fun r8 =>
    fieldThen 0 59 r8 fun miv r9 =>
    litThen ':' r9 fun r10 =>
    fieldThen 0 61 r10 fun sv r11 =>
    if r11 = [] then
      let dv := if dayFirst then a else b
      let mov := if dayFirst then b else a
      if 1 ≤ yv ∧ dv ≤ daysInMonth yv mov ∧ sv ≤ 59 then
        some ⟨yv, mov, dv, hv, miv, sv⟩
      else none
    else none

def pyStrptime (fmt : String) (s : String) : Option DateTime :=
  if fmt = fmtDDMM then strptimeDotted true s
  else if fmt = fmtMMDD then strptimeDotted false s
  else none

/-- Days before January 1 of year `y` in the proleptic Gregorian
calendar (as `date.toordinal`). -/
def daysBeforeYear (y : Nat) : Nat :=
  365 * (y - 1) + (y - 1) / 4 - (y - 1) / 100 + (y - 1) / 400

def daysBeforeMonth (y m : Nat) : Nat :=
  (List.range (m - 1)).foldl (fun acc i => acc + daysInMonth y (i + 1)) 0

def toOrdinal (t : DateTime) : Nat :=
  daysBeforeYear t.y + daysBeforeMonth t.y t.mo + t.d

/-- Seconds on the naive timeline; for the valid datetimes produced by
`strptime` this ordering agrees with Python's datetime comparison. -/
def dtSecs (t : DateTime) : Int :=
  ((toOrdinal t) * 86400 + t.h * 3600 + t.mi * 60 + t.s : Nat)

/-- `(d1 - d2).days`: `timedelta.days` floors. -/
def diffDays (d1 d2 : DateTime) : Int :=
  Int.fdiv (dtSecs d1 - dtSecs d2) 86400

def insertByTime (x : DateTime) : List DateTime → List DateTime
  | [] => [x]
  | y :: rest =>
    if dtSecs x ≤ dtSecs y then x :: y :: rest else y :: insertByTime x rest

/-- `sorted(parsed_dates)` (only the resulting order matters to the
chronology score). -/
def sortDates (l : List DateTime) : List DateTime :=
  l.foldr insertByTime []

structure FmtScore where
  successRate : ℚ
  chronology : ℚ
  futurePen : ℚ
  combined : ℚ
deriving DecidableEq

/-- Chronology score (utils.py lines 288-293): fraction of positions
where the parsed date is within 30 days of the date at the same position
of the sorted list; defaults to 1 with fewer than two parses. -/
def chronologyScore (parsed : List DateTime) : ℚ :=
  if parsed.length ≥ 2 then
    ((parsed.zip (sortDates parsed)).countP
        (fun p => (diffDays p.1 p.2).natAbs ≤ 30) : ℚ) / (parsed.length : ℚ)
  else 1

/-- Future-date penalty (utils.py lines 296-298): fraction of parsed
dates more than 30 days after `now`. -/
def futurePenalty (now : DateTime) (parsed : List DateTime) : ℚ :=
  if parsed = [] then 0
  else
    ((parsed.countP (fun d => dtSecs now + 30 * 86400 < dtSecs d)) : ℚ) /
      (parsed.length : ℚ)

/-- Per-format scoring (utils.py lines 273-311). -/
def scoreFormat (now : DateTime) (fmt : String) (test : List String) : FmtScore :=
  let parsed := test.filterMap (pyStrptime fmt)
  let rate : ℚ := (parsed.length : ℚ) / (test.length : ℚ)
  let chron := chronologyScore parsed
  let pen := futurePenalty now parsed
  { successRate := rate, chronology := chron, futurePen := pen,
    combined := rate * chron * (1 - pen * (1 / 2)) }

/-- Python `max(items, key=f)`: the first item attaining the maximal key
(in insertion order). -/
def pyMaxBy {α β : Type} [LinearOrder β] (f : α → β) : List α → Option α
  | [] => none
  | x :: xs => some (xs.foldl (fun best y => if f best < f y then y else best) x)

def pySplitWS (s : String) : List String :=
  (wsTokensAux s.data []).map String.mk

/-- The evidence extracted from one sample by
`_find_unambiguous_evidence` (utils.py lines 233-246): take the first
whitespace token, require a dotted token whose parts are all `int()`-able
(a failing part raises and the sample is skipped), and vote for the
pattern pinned down by a first-two component exceeding 12. -/
def sampleVote (s : String) : Option String :=
  match pySplitWS s with
  | [] => none
  | tok :: _ =>
    if tok.data.contains '.' then
      let parts := (splitOnChar '.' tok.data).map (fun cs => pyInt? (String.mk cs))
      if parts.all Option.isSome then
        match parts with
        | some first :: some second :: _ =>
          if first > 12 ∧ second ≤ 12 then some fmtDDMM
          else if second > 12 ∧ first ≤ 12 then some fmtMMDD
          else none
        | _ => none
      else none
    else none

/-- Python dict `get`/assignment tally: first insertion fixes the
position, later votes update the count in place. -/
def bumpCount (l : List (String × Nat)) (k : String) : List (String × Nat) :=
  match l with
  | [] => [(k, 1)]
  | (k', n) :: rest =>
    if k' = k then (k', n + 1) :: rest else (k', n) :: bumpCount rest k

def voteStep (acc : List (String × Nat)) (s : String) : List (String × Nat) :=
  match sampleVote s with
  | some f => bumpCount acc f
  | none => acc

def findUnambiguousEvidence (samples : List String) : List (String × Nat) :=
  samples.foldl voteStep []

/-- `_detect_format_from_samples` (utils.py lines 251-324): re-check for
unambiguous evidence, then score every configured format on the first
100 samples and keep the best if its combined score beats 0.7, falling
back to `DATE_FORMATS[0]`. -/
def detectFormatFromSamples (now : DateTime) (validSamples : List String) : Option String :=
  match pyMaxBy Prod.snd (findUnambiguousEvidence validSamples) with
  | some (f, _) => some f
  | none =>
    let test := validSamples.take 100
    let scores := DATE_FORMATS.map (fun f => (f, scoreFormat now f test))
    match pyMaxBy (fun p => p.2.combined) scores with
    | some (f, sc) => if (7 : ℚ) / 10 < sc.combined then some f else DATE_FORMATS.head?
    | none => DATE_FORMATS.head?

/-- Sample cleaning (utils.py lines 163-169): keep truthy strings whose
stripped form is longer than 8 characters, stripped. -/
def cleanSamples (samples : List String) : List String :=
  samples.filterMap (fun s =>
    if s ≠ "" ∧ (pyStrip s).length > 8 then some (pyStrip s) else none)

/-- `detect_date_format` (utils.py lines 124-226) with
`FORCE_DATE_FORMAT = None`: clean the samples (strings longer than 8
characters once stripped), return `None` when nothing survives, return a
top-voted pattern as soon as unambiguous evidence exists, otherwise fall
through to the scored detection on the first 200 samples.  For at most
500 cleaned samples the whole pool is scanned ("small dataset" branch);
the random progressive subsampling used above 500 samples is outside
this model, so the theorems below carry a ≤ 500 hypothesis. -/
def detectDateFormat (now : DateTime) (samples : List String) : Option String :=
  let valid := cleanSamples samples
  if valid = [] then none
  else
    match pyMaxBy Prod.snd (findUnambiguousEvidence valid) with
    | some (f, _) => some f
    | none => detectFormatFromSamples now (valid.take 200)

/-! ## The statistics accumulator (src/data_processor.py)

A polars chunk is a `Frame`: a shared column list plus rows of cells; a
cell is `none` for a polars null, `some s` for the CSV text (the schema
overrides of `_get_schema_overrides` force the free-form columns to
text).  `_update_month_stats` mutates a statistics dictionary in source
order; the whole function body sits in a `try` whose `except` (line 743)
only logs, so an uncaught exception inside one section silently skips
every later section of that batch — modelled by the abort flag of
`numericLoop`. -/

abbrev Cell := Option String

abbrev CsvRow := List (String × Cell)

structure Frame where
  cols : List String
  rows : List CsvRow
deriving DecidableEq

def getCell (r : CsvRow) (c : String) : Cell := (r.lookup c).getD none

def colVals (f : Frame) (c : String) : List Cell :=
  f.rows.map (fun r => getCell r c)

/-- The recurring Python guard `v and str(v) != 'nan'` on a cell. -/
def goodCell (v : Cell) : Bool :=
  match v with
  | none => false
  | some s => s ≠ "" && s ≠ "nan"

def goodStrs (vals : List Cell) : List String :=
  vals.filterMap (fun v =>
    match v with
    | some s => if s ≠ "" && s ≠ "nan" then some s else none
    | none => none)

/-- `str(v).replace('.', '').isdigit()` (line 696): every character a
digit once every dot is removed, and at least one of them. -/
def digitGuard (s : String) : Bool :=
  let t := s.data.filter (fun c => c ≠ '.')
  !t.isEmpty && t.all Char.isDigit

/-- Python `float()` on the strings reaching it here: optional
whitespace and sign around a plain decimal literal with at least one
digit and at most one dot; anything else raises — `none`.  (Exponent and
inf/nan literals are not modelled; no guard-passing string contains
them.) -/
def pyFloat? (s : String) : Option ℚ :=
  let core := fun (u : List Char) =>
    match splitOnChar '.' u with
    | [a] =>
      if a ≠ [] ∧ a.all Char.isDigit then some ((digitsVal a : ℚ)) else none
    | [a, b] =>
      if (a ≠ [] ∨ b ≠ []) ∧ a.all Char.isDigit ∧ b.all Char.isDigit then
        some ((digitsVal a : ℚ) + (digitsVal b : ℚ) / ((10 : ℚ) ^ b.length))
      else none
    | _ => none
  match (pyStrip s).data with
  | '+' :: rest => core rest
  | '-' :: rest => (core rest).map Neg.neg
  | cs => core cs

/-- A cell on which the comprehension of line 696 raises: it passes the
truthiness, nan and digit guards, yet `float()` fails (e.g. `"1.2.3"`,
whose dot-stripped form `"123"` is all digits). -/
def badNumeric (v : Cell) : Bool :=
  match v with
  | some s => s ≠ "" && s ≠ "nan" && digitGuard s && (pyFloat? s).isNone
  | none => false

/-- The `numeric_values` comprehension of line 696 in the absence of a
`badNumeric` cell (with one present the comprehension raises instead). -/
def numericVals (vals : List Cell) : List ℚ :=
  vals.filterMap (fun v =>
    match v with
    | some s => if s ≠ "" && s ≠ "nan" && digitGuard s then pyFloat? s else none
    | none => none)

/-- Python `max` of a nonempty list (`[]` never reaches it). -/
def pyMaxQ : List ℚ → ℚ
  | [] => 0
  | x :: xs => xs.foldl max x

/-- The provenance scan of lines 707-712 under the inner `try` of lines
706-721: `some (some i)` is the first index whose truthy non-nan value
`float()`s to the maximum, `some none` a completed scan without a match,
and `none` a `float()` that raised first — caught by the inner `except`,
which skips the provenance update and continues with the next column. -/
def scanMaxIndexAux (m : ℚ) : List Cell → Nat → Option (Option Nat)
  | [], _ => some none
  | v :: rest, i =>
    match v with
    | some s =>
      if s ≠ "" && s ≠ "nan" then
        match pyFloat? s with
        | none => none
        | some q => if q = m then some (some i) else scanMaxIndexAux m rest (i + 1)
      else scanMaxIndexAux m rest (i + 1)
    | none => scanMaxIndexAux m rest (i + 1)

def scanMaxIndex (vals : List Cell) (m : ℚ) : Option (Option Nat) :=
  scanMaxIndexAux m vals 0

/-- `_extract_attack_details_from_row` (lines 991-1013): the full row at
`row_index` as a flat column → value mapping (the `details` wrapper
dictionary is dropped; an out-of-range index yields the `'N/A'`
fallback of line 1008). -/
def extractRow (f : Frame) (i : Nat) : CsvRow :=
  f.cols.map (fun c =>
    (c, match f.rows.get? i with
        | some r => getCell r c
        | none => some "N/A"))

/-- `attack_types[attack] = {'count': old + 1, 'threat_category': cat}`:
count bumped, category overwritten, dict position preserved. -/
def bumpAttack (l : List (String × Nat × String)) (k cat : String) :
    List (String × Nat × String) :=
  match l with
  | [] => [(k, 1, cat)]
  | (k', n, c') :: rest =>
    if k' = k then (k', n + 1, cat) :: rest else (k', n, c') :: bumpAttack rest k cat

def insertAll (s : Finset String) (l : List String) : Finset String :=
  l.foldl (fun acc x => insert x acc) s

structure Stats where
  total_events : Nat
  unique_source_ips : Finset String
  unique_dest_ips : Finset String
  attack_types : List (String × Nat × String)
  protocols : List (String × Nat)
  actions : List (String × Nat)
  total_packets : ℚ
  total_mbits : ℚ
  max_pps : ℚ
  max_bps : ℚ
  max_pps_details : Option CsvRow
  max_bps_details : Option CsvRow
  hourly : List Nat
  devices : List (String × Nat)
  policies : List (String × Nat)
deriving DecidableEq

/-- The fresh statistics dictionary of `process_holistic_analysis` /
`process_monthly_data` (the fields this model tracks). -/
def initStats : Stats :=
  { total_events := 0, unique_source_ips := ∅, unique_dest_ips := ∅,
    attack_types := [], protocols := [], actions := [],
    total_packets := 0, total_mbits := 0, max_pps := 0, max_bps := 0,
    max_pps_details := none, max_bps_details := none,
    hourly := List.replicate 24 0, devices := [], policies := [] }

/-- Lines 641-648: add the truthy non-nan source/destination IP values
to the unique sets. -/
def ipSection (st : Stats) (f : Frame) : Stats :=
  let st1 :=
    if "Source IP Address" ∈ f.cols then
      { st with unique_source_ips :=
          insertAll st.unique_source_ips (goodStrs (colVals f "Source IP Address")) }
    else st
  if "Destination IP Address" ∈ f.cols then
    { st1 with unique_dest_ips :=
        insertAll st1.unique_dest_ips (goodStrs (colVals f "Destination IP Address")) }
  else st1

/-- Lines 650-668: attack-name counts with threat category, falling back
to the `'N/A'` category when the category column is missing. -/
def attackStepBoth (acc : List (String × Nat × String)) (p : Cell × Cell) :
    List (String × Nat × String) :=
  match p with
  | (some a, some tc) =>
    if a ≠ "" && a ≠ "nan" && tc ≠ "" && tc ≠ "nan" then bumpAttack acc a tc else acc
  | _ => acc

def attackStepName (acc : List (String × Nat × String)) (v : Cell) :
    List (String × Nat × String) :=
  match v with
  | some a => if a ≠ "" && a ≠ "nan" then bumpAttack acc a "N/A" else acc
  | none => acc

def attackSection (st : Stats) (f : Frame) : Stats :=
  if "Attack Name" ∈ f.cols ∧ "Threat Category" ∈ f.cols then
    let l := ((colVals f "Attack Name").zip (colVals f "Threat Category")).foldl
      attackStepBoth st.attack_types
    { st with attack_types := l }
  else if "Attack Name" ∈ f.cols then
    let l := (colVals f "Attack Name").foldl attackStepName st.attack_types
    { st with attack_types := l }
  else st

/-- The per-value count pattern used for protocols, actions, devices and
policies (lines 670-680, 731-741). -/
def countStep (acc : List (String × Nat)) (v : Cell) : List (String × Nat) :=
  match v with
  | some x => if x ≠ "" && x ≠ "nan" then bumpCount acc x else acc
  | none => acc

def countCol (cur : List (String × Nat)) (f : Frame) (c : String) : List (String × Nat) :=
  if c ∈ f.cols then (colVals f c).foldl countStep cur else cur

inductive NumKey
  | packets
  | mbits
  | pps
  | bps
deriving DecidableEq

def packetsVariants : List String :=
  ["Total Packets", "Total Packets Dropped", "TotalPackets", "total_packets", "Packets"]

def mbitsVariants : List String :=
  ["Total Mbits", "Total Mbits Dropped", "TotalMbits", "total_mbits", "Mbits"]

def ppsVariants : List String := ["Max pps", "MaxPPS", "max_pps", "Max_pps"]

def bpsVariants : List String := ["Max bps", "MaxBPS", "max_bps", "Max_bps"]

/-- `_create_column_mapping` (lines 165-197) restricted to one standard
name: the first variant present among the frame's columns. -/
def resolveVariant (variants cols : List String) : Option String :=
  variants.find? (fun v => v ∈ cols)

/-- The `numeric_columns` dictionary of lines 686-691 in iteration
order.  (Distinct mapped names never collide; unmapped entries collapse
onto the `None` key in Python and are skipped by the `if col_name`
guard, just as the `none` entries are skipped here.) -/
def numericTargets (cols : List String) : List (Option String × NumKey) :=
  [(resolveVariant packetsVariants cols, .packets),
   (resolveVariant mbitsVariants cols, .mbits),
   (resolveVariant ppsVariants cols, .pps),
   (resolveVariant bpsVariants cols, .bps)]

def listSumQ (l : List ℚ) : ℚ := l.foldl (· + ·) 0

/-- Lines 698-721 for one resolved numeric column: running sums for the
packet/volume totals; for the maxima, a chunk maximum strictly above the
stored value replaces it and re-points the provenance at the row found
by the scan (provenance untouched when the scan raises or finds
nothing). -/
def applyNumericCol (st : Stats) (f : Frame) (k : NumKey) (vals : List Cell) : Stats :=
  let nvs := numericVals vals
  if nvs = [] then st
  else
    match k with
    | .packets => { st with total_packets := st.total_packets + listSumQ nvs }
    | .mbits => { st with total_mbits := st.total_mbits + listSumQ nvs }
    | .pps =>
      let cur := pyMaxQ nvs
      if st.max_pps < cur then
        let det := match scanMaxIndex vals cur with
          | some (some i) => some (extractRow f i)
          | _ => st.max_pps_details
        { st with max_pps := cur, max_pps_details := det }
      else st
    | .bps =>
      let cur := pyMaxQ nvs
      if st.max_bps < cur then
        let det := match scanMaxIndex vals cur with
          | some (some i) => some (extractRow f i)
          | _ => st.max_bps_details
        { st with max_bps := cur, max_bps_details := det }
      else st

/-- The `for col_name, stat_key in numeric_columns.items()` loop (lines
693-721).  A `badNumeric` cell makes the comprehension raise before the
column contributes anything; the exception unwinds to the function-level
`except` of line 743, so the loop stops and the abort flag is raised. -/
def numericLoop (st : Stats) (f : Frame) : List (Option String × NumKey) → Stats × Bool
  | [] => (st, false)
  | (oc, k) :: rest =>
    match oc with
    | none => numericLoop st f rest
    | some c =>
      if c ∈ f.cols then
        let vals := colVals f c
        if vals.any badNumeric then (st, true)
        else numericLoop (applyNumericCol st f k vals) f rest
      else numericLoop st f rest

/-- Lines 723-729: hour-of-day histogram over parsed start times.
`parse_date_flexible` (the detected format, the fallback formats and the
dateutil parser) is abstracted as the `parse` argument; it returns
`none` for a null or empty cell and for unparseable text. -/
def hourlyStep (parse : String → Option DateTime) (acc : List Nat) (v : Cell) : List Nat :=
  match v with
  | some s =>
    if s ≠ "" then
      match parse s with
      | some t => acc.set t.h (acc.getD t.h 0 + 1)
      | none => acc
    else acc
  | none => acc

def hourlySection (parse : String → Option DateTime) (st : Stats) (f : Frame) : Stats :=
  if "Start Time" ∈ f.cols then
    let l := (colVals f "Start Time").foldl (hourlyStep parse) st.hourly
    { st with hourly := l }
  else st

/-- The sections of `_update_month_stats` preceding the numeric loop
(lines 638-680): event count, IP sets, attack types, protocol and
action counts. -/
def preNumeric (st : Stats) (f : Frame) : Stats :=
  let st1 := { st with total_events := st.total_events + f.rows.length }
  let st2 := ipSection st1 f
  let st3 := attackSection st2 f
  let st4 := { st3 with protocols := countCol st3.protocols f "Protocol" }
  { st4 with actions := countCol st4.actions f "Action" }

/-- The sections of `_update_month_stats` after the numeric loop (lines
723-741): hourly histogram, device and policy counts — reached only
when no numeric cell raised. -/
def postNumeric (parse : String → Option DateTime) (st : Stats) (f : Frame) : Stats :=
  let st7 := hourlySection parse st f
  let st8 := { st7 with devices := countCol st7.devices f "Device Name" }
  { st8 with policies := countCol st8.policies f "Policy Name" }

/-- `_update_month_stats` (lines 630-744) over the modelled fields, in
source order; when the numeric loop raised (abort flag), the caught
exception skips every remaining section of the batch. -/
def updateMonthStats (parse : String → Option DateTime) (st : Stats) (f : Frame) : Stats :=
  let r := numericLoop (preNumeric st f) f (numericTargets f.cols)
  if r.2 then r.1 else postNumeric parse r.1 f

/-- `_apply_data_filters` (lines 141-163): one sequential
`chunk.filter(~col.is_in(excluded) )` per configured rule whose column
exists in the chunk and whose value list is nonempty.  polars `filter`
keeps only rows whose predicate is true; a null cell propagates null
through `is_in` and `~`, so the row is dropped. -/
def keepRow (col : String) (excluded : List String) (r : CsvRow) : Bool :=
  match getCell r col with
  | some s => !(excluded.contains s)
  | none => false

def filterStep (fr : Frame) (p : String × List String) : Frame :=
  if p.1 ∈ fr.cols ∧ p.2 ≠ [] then
    let l := fr.rows.filter (keepRow p.1 p.2)
    { fr with rows := l }
  else fr

def applyDataFilters (filters : List (String × List String)) (f : Frame) : Frame :=
  filters.foldl filterStep f

/-- The row filter in the words of the claim: a row is dropped iff its
value lies in the excluded set of every rule whose column is present in
the batch. -/
def claimDropRow (filters : List (String × List String)) (cols : List String) (r : CsvRow) :
    Bool :=
  (filters.filter (fun p => p.1 ∈ cols)).all (fun p =>
    match getCell r p.1 with
    | some s => p.2.contains s
    | none => false)

/-- The chunk decomposition realised by the skip/read loop of
`process_holistic_analysis` (lines 811-849): consecutive slices of
`chunk_size` rows, the last one shorter; a zero chunk size reads an
empty first chunk and processes nothing. -/
def chunksOf (c : Nat) (xs : List α) : List (List α) :=
  match xs with
  | [] => []
  | x :: rest =>
    if _h : c = 0 then []
    else (x :: rest).take c :: chunksOf c ((x :: rest).drop c)
termination_by xs.length
decreasing_by
  simp only [List.length_drop, List.length_cons]
  omega

/-- The per-chunk pipeline of `process_holistic_analysis`: filter the
chunk (line 834), then update the accumulator (line 836 via
`_update_holistic_stats`, whose shared part is `_update_month_stats`;
its holistic-only extras touch none of the fields modelled here). -/
def streamStats (parse : String → Option DateTime) (filters : List (String × List String))
    (c : Nat) (f : Frame) : Stats :=
  (chunksOf c f.rows).foldl
    (fun st rows => updateMonthStats parse st (applyDataFilters filters ⟨f.cols, rows⟩))
    initStats

def goodColB (f : Frame) (oc : Option String) : Bool :=
  match oc with
  | none => true
  | some c => (colVals f c).all (fun v => !badNumeric v)

/-- No tracked numeric column of the frame contains a cell on which the
line-696 comprehension would raise. -/
def goodFrame (f : Frame) : Bool :=
  (numericTargets f.cols).all (fun p => goodColB f p.1)

/-- The observables named by the chunking claim: total events, the two
unique-IP sets, and the two running maxima. -/
def obsOf (st : Stats) : Nat × Finset String × Finset String × ℚ × ℚ :=
  (st.total_events, st.unique_source_ips, st.unique_dest_ips, st.max_pps, st.max_bps)

/-- The pattern pinned down by one piece of unambiguous evidence, in the
words of the claim (a first-two date-token component exceeding 12 must
be the day): the table is the one the code itself applies to dotted
tokens. -/
def evidencePattern (first second : Int) : Option String :=
  if first > 12 ∧ second ≤ 12 then some fmtDDMM
  else if second > 12 ∧ first ≤ 12 then some fmtMMDD
  else none

/-- The other candidate pattern. -/
def otherFmt (f : String) : String := if f = fmtDDMM then fmtMMDD else fmtDDMM

/-- Count held in an ordered association list (0 when absent). -/
def lookupCount : List (String × Nat) → String → Nat
  | [], _ => 0
  | (k', n) :: rest, k => if k' = k then n else lookupCount rest k

/-- The cell list a resolved numeric target contributes (empty for an
unresolved target). -/
def targetVals (f : Frame) (oc : Option String) : List Cell :=
  match oc with
  | none => []
  | some c => colVals f c

/-- The parsed numeric values of the `Max pps` target of a frame. -/
def ppsVals (f : Frame) : List ℚ :=
  numericVals (targetVals f (resolveVariant ppsVariants f.cols))

/-- The parsed numeric values of the `Max bps` target of a frame. -/
def bpsVals (f : Frame) : List ℚ :=
  numericVals (targetVals f (resolveVariant bpsVariants f.cols))

/-! ## Theorems -/

/-- Helper: removing the head value deletes exactly the head. -/
theorem removeFirst_cons_self [DecidableEq α] (x : α) (l : List α) :
    removeFirst (x :: l) x = l := by
  simp [removeFirst]

/-- Helper: the excluded-month prefix, removed one value at a time from
the full candidate list, leaves the suffix from the first validated
month on. -/
theorem foldRemove_collect (rows : List RowTimes) (cands : List MonthIv) :
    (collectExcluded rows cands).foldl
      (fun acc m => if m ∈ acc then removeFirst acc m else acc) cands
    = cands.dropWhile (fun m => !monthHasContained m rows) := by
  induction cands with
  | nil => simp [collectExcluded]
  | cons m rest ih =>
    by_cases h : monthHasContained m rows
    · simp [collectExcluded, h, List.dropWhile_cons]
    · have hcol : collectExcluded rows (m :: rest) = m :: collectExcluded rows rest := by
        simp [collectExcluded, h]
      have hacc : (if m ∈ m :: rest then removeFirst (m :: rest) m else m :: rest) = rest := by
        simp [removeFirst_cons_self]
      rw [hcol]
      simp only [List.foldl_cons]
      rw [hacc, ih]
      simp [List.dropWhile_cons, h]

/-- C5 (amended): on a successful scan, month validation returns exactly
the suffix of the candidate list starting at the first candidate that
contains an overlapping fully-contained event; the empty list when there
is none.  In particular the result is an in-order subsequence of the
input: candidates before the first such month are excluded, the first
such month and every later candidate are kept without further
checking. -/
theorem validateMonths_eq_dropWhile (cands : List MonthIv) (rows : List RowTimes) :
    validateCompleteMonths cands (.ok rows)
    = cands.dropWhile (fun m => !monthHasContained m rows) := by
  by_cases h : cands = []
  · simp [validateCompleteMonths, h]
  · simp only [validateCompleteMonths, h, if_false]
    exact foldRemove_collect rows cands

/-- C5 counterexample: the claim's own containment test (`start ≥
month_start` and `end ≤ month_end`, with no overlap requirement) accepts
a reversed interval (end before start), so the claim demands that the
month `[10, 20]` be validated by the row `(25, 5)`; the code's overlap
pre-filter (`start ≤ month_end`) discards that row and excludes the
month. -/
theorem validateMonths_claim_counterexample :
    validateCompleteMonths [((10 : Int), (20 : Int))] (.ok [(some 25, some 5)]) = [] ∧
    claimValidate [((10 : Int), (20 : Int))] [(some 25, some 5)]
      = [((10 : Int), (20 : Int))] := by
  exact ⟨by decide, by decide⟩

/-- C10: any exception while scanning the file (unreadable file, parse
failure, ...) is caught by the `except` of lines 511-514 and the whole
candidate-month list is returned unchanged — never a raise, and never a
loss of candidates. -/
theorem validateMonths_error_fallback (e : Unit) (cands : List MonthIv) :
    validateCompleteMonths cands (.error e) = cands := by
  by_cases h : cands = [] <;> simp [validateCompleteMonths, h]

/-- C2: evaluation at the failing input.  With the two configured rules
`{'Risk': ['Low'], 'Direction': ['Internal']}` and a row having
`Risk='Low'` but `Direction='External'`, the sequential
`filter(~is_in)` chain drops the row (OR across rules), while the rule
documented in config.py lines 40-41 and stated by the claim (drop only
when every applicable rule matches) keeps it. -/
theorem applyDataFilters_or_not_and :
    (applyDataFilters [("Risk", ["Low"]), ("Direction", ["Internal"])]
        ⟨["Risk", "Direction"],
         [[("Risk", some "Low"), ("Direction", some "External")]]⟩).rows = [] ∧
    claimDropRow [("Risk", ["Low"]), ("Direction", ["Internal"])] ["Risk", "Direction"]
        [("Risk", some "Low"), ("Direction", some "External")] = false := by
  exact ⟨by decide, by decide⟩

/-- C7: evaluation at the failing input.  `"1.2.3"` passes the digit
guard of line 696 (`"123".isdigit()`), then `float("1.2.3")` raises; the
exception is only caught by the function-level handler at line 743, so
for this one-row batch the event count (updated before the numeric loop)
is applied but the device count (updated after it) is silently lost,
instead of only the malformed value being skipped. -/
theorem updateMonthStats_abort_skips_batch :
    digitGuard "1.2.3" = true ∧ pyFloat? "1.2.3" = none ∧
    (updateMonthStats (fun _ => none) initStats
        ⟨["Total Packets", "Device Name"],
         [[("Total Packets", some "1.2.3"), ("Device Name", some "dev1")]]⟩).total_events
      = 1 ∧
    (updateMonthStats (fun _ => none) initStats
        ⟨["Total Packets", "Device Name"],
         [[("Total Packets", some "1.2.3"), ("Device Name", some "dev1")]]⟩).devices
      = [] := by
  exact ⟨by decide, by decide, by decide, by decide⟩

/-- C3: evaluation at the failing input.  In a batch whose `Max bps`
column holds `"abc"` then `"500"`, the comprehension of line 696 skips
`"abc"` (digit guard) and the chunk maximum 500 replaces the stored
maximum 0; but the provenance scan of lines 707-712 calls `float("abc")`
without that guard, raises, and the inner `except` of line 719 abandons
the provenance update — the maximum advances while the provenance row
stays `None` instead of becoming the row holding 500. -/
theorem updateMonthStats_max_without_provenance :
    goodCell (some "abc") = true ∧ pyFloat? "abc" = none ∧
    (updateMonthStats (fun _ => none) initStats
        ⟨["Max bps"], [[("Max bps", some "abc")], [("Max bps", some "500")]]⟩).max_bps
      = 500 ∧
    (updateMonthStats (fun _ => none) initStats
        ⟨["Max bps"], [[("Max bps", some "abc")], [("Max bps", some "500")]]⟩).max_bps_details
      = none := by
  exact ⟨by decide, by decide, by decide, by decide⟩

theorem dtLe_refl (t : DateTime) : dtLe t t := le_refl _

theorem dtLe_trans {a b c : DateTime} (h1 : dtLe a b) (h2 : dtLe b c) : dtLe a c :=
  le_trans h1 h2

/-- Advancing to the first of the next month never moves backwards. -/
theorem dtLe_nextMonthStart (t : DateTime) : dtLe t (nextMonthStart t) := by
  by_cases h : t.mo = 12
  · unfold dtLe nextMonthStart DateTime.key
    rw [if_pos h, Prod.Lex.le_iff]
    left
    exact Nat.lt_succ_self _
  · unfold dtLe nextMonthStart DateTime.key
    rw [if_neg h, Prod.Lex.le_iff]
    right
    refine ⟨rfl, ?_⟩
    rw [Prod.Lex.le_iff]
    left
    exact Nat.lt_succ_self _

/-- Loop invariant: every month interval emitted by the enumeration loop
starts at or after the loop's entry point and ends at or before the
range end (the latter is exactly the emission guard). -/
theorem monthsLoop_bounds (fuel : Nat) :
    ∀ (cur endD : DateTime) (p : DateTime × DateTime),
      p ∈ monthsLoop fuel cur endD → dtLe cur p.1 ∧ dtLe p.2 endD := by
  induction fuel with
  | zero => intro cur endD p hp; simp [monthsLoop] at hp
  | succ n ih =>
    intro cur endD p hp
    simp only [monthsLoop] at hp
    by_cases h1 : dtLe cur endD
    · rw [if_pos h1] at hp
      by_cases h2 : dtLe (predSecond (nextMonthStart cur)) endD
      · rw [if_pos h2] at hp
        rcases List.mem_cons.mp hp with hEq | hTail
        · rw [hEq]
          exact ⟨dtLe_refl cur, h2⟩
        · have hb := ih (nextMonthStart cur) endD p hTail
          exact ⟨dtLe_trans (dtLe_nextMonthStart cur) hb.1, hb.2⟩
      · rw [if_neg h2] at hp
        simp at hp
    · rw [if_neg h1] at hp
      simp at hp

/-- C9: every (month_start, month_end) interval produced by the calendar
phase of `get_complete_months` is enclosed in the observed range:
`month_start ≥ start_date` and `month_end ≤ end_date` — also when
`start_date` is a first-of-month instant later than midnight, in which
case the first emitted month starts at `start_date` itself. -/
theorem getCompleteMonths_enclosed (fuel : Nat) (startD endD : DateTime)
    (p : DateTime × DateTime) (hp : p ∈ getCompleteMonths fuel startD endD) :
    dtLe startD p.1 ∧ dtLe p.2 endD := by
  simp only [getCompleteMonths] at hp
  by_cases h : startD.d = 1
  · rw [if_pos h] at hp
    exact monthsLoop_bounds fuel startD endD p hp
  · rw [if_neg h] at hp
    have hb := monthsLoop_bounds fuel (nextMonthStart startD) endD p hp
    exact ⟨dtLe_trans (dtLe_nextMonthStart startD) hb.1, hb.2⟩

/-- C9 witness: a range starting on January 1 at 10:30 produces the
January interval starting at that very instant, and the theorem applies
to it. -/
theorem getCompleteMonths_enclosed_witness :
    (⟨2024, 1, 1, 10, 30, 0⟩, ⟨2024, 1, 31, 23, 59, 59⟩) ∈
        getCompleteMonths 5 ⟨2024, 1, 1, 10, 30, 0⟩ ⟨2024, 3, 15, 0, 0, 0⟩ ∧
      (dtLe ⟨2024, 1, 1, 10, 30, 0⟩ ⟨2024, 1, 1, 10, 30, 0⟩ ∧
        dtLe ⟨2024, 1, 31, 23, 59, 59⟩ ⟨2024, 3, 15, 0, 0, 0⟩) :=
  ⟨by decide,
   getCompleteMonths_enclosed 5 ⟨2024, 1, 1, 10, 30, 0⟩ ⟨2024, 3, 15, 0, 0, 0⟩
     (⟨2024, 1, 1, 10, 30, 0⟩, ⟨2024, 1, 31, 23, 59, 59⟩) (by decide)⟩

/-- Helper: the scored fallback always settles on some pattern — the
best scorer above the 0.7 threshold or the configured default
`DATE_FORMATS[0]` — never `None`. -/
theorem detectFormatFromSamples_isSome (now : DateTime) (vs : List String) :
    (detectFormatFromSamples now vs).isSome = true := by
  unfold detectFormatFromSamples
  rcases hev : pyMaxBy Prod.snd (findUnambiguousEvidence vs) with _ | ⟨f, n⟩
  · simp only [pyMaxBy, DATE_FORMATS, List.map_cons, List.map_nil]
    split <;> simp [DATE_FORMATS]
  · simp

/-- C6 (amended): detection returns `None` exactly when no sample
survives cleaning (a string whose stripped form is longer than 8
characters); whenever any sample survives — even one no configured
format can parse — detection returns some pattern, falling back to the
configured default `DATE_FORMATS[0]` instead of `None`. -/
theorem detectDateFormat_none_iff (now : DateTime) (samples : List String)
    (_h : (cleanSamples samples).length ≤ 500) :
    detectDateFormat now samples = none ↔ cleanSamples samples = [] := by
  constructor
  · intro hd
    by_contra hne
    unfold detectDateFormat at hd
    rw [if_neg hne] at hd
    rcases hev : pyMaxBy Prod.snd (findUnambiguousEvidence (cleanSamples samples))
      with _ | ⟨f, n⟩
    · rw [hev] at hd
      have hd' : detectFormatFromSamples now ((cleanSamples samples).take 200) = none := hd
      have hs := detectFormatFromSamples_isSome now ((cleanSamples samples).take 200)
      rw [hd'] at hs
      simp at hs
    · rw [hev] at hd
      have hd' : (some f : Option String) = none := hd
      exact Option.noConfusion hd'
  · intro he
    simp [detectDateFormat, he]

/-- C6 witness: a too-short sample list cleans to nothing, and the
theorem yields `None` there. -/
theorem detectDateFormat_none_iff_witness :
    (cleanSamples ["x"]).length ≤ 500 ∧
      detectDateFormat ⟨2026, 10, 12, 0, 0, 0⟩ ["x"] = none :=
  ⟨by decide,
   (detectDateFormat_none_iff ⟨2026, 10, 12, 0, 0, 0⟩ ["x"] (by decide)).mpr (by decide)⟩

/-- Helper: when a format parses no test sample its combined score is
zero (`0/n * chronology * (1 - penalty/2) = 0`). -/
theorem scoreFormat_combined_noParse (now : DateTime) (fmt : String) (test : List String)
    (h : test.filterMap (pyStrptime fmt) = []) :
    (scoreFormat now fmt test).combined = 0 := by
  simp [scoreFormat, h]

/-- Helper: with no unambiguous evidence and no sample parseable by
either configured format, the scored phase falls back to
`DATE_FORMATS[0]`. -/
theorem detectFormatFromSamples_noParse (now : DateTime) (vs : List String)
    (hev : findUnambiguousEvidence vs = [])
    (h1 : (vs.take 100).filterMap (pyStrptime fmtDDMM) = [])
    (h2 : (vs.take 100).filterMap (pyStrptime fmtMMDD) = []) :
    detectFormatFromSamples now vs = some fmtDDMM := by
  have hs1 := scoreFormat_combined_noParse now fmtDDMM (vs.take 100) h1
  have hs2 := scoreFormat_combined_noParse now fmtMMDD (vs.take 100) h2
  unfold detectFormatFromSamples
  rw [hev]
  simp only [pyMaxBy, DATE_FORMATS, List.map_cons, List.map_nil, List.foldl_cons,
    List.foldl_nil, hs1, hs2]
  norm_num

/-- C6 counterexample: `"aaaaaaaaaaaa"` survives cleaning (12
characters) but is parseable by no configured format; the claim demands
`None`, yet detection returns the default pattern `DATE_FORMATS[0]`. -/
theorem detectDateFormat_unparseable_default :
    (∀ fmt ∈ DATE_FORMATS, pyStrptime fmt "aaaaaaaaaaaa" = none) ∧
      detectDateFormat ⟨2026, 10, 12, 0, 0, 0⟩ ["aaaaaaaaaaaa"] = some fmtDDMM := by
  constructor
  · decide
  · have hclean : cleanSamples ["aaaaaaaaaaaa"] = ["aaaaaaaaaaaa"] := by decide
    have hev : findUnambiguousEvidence ["aaaaaaaaaaaa"] = [] := by decide
    simp only [detectDateFormat, hclean]
    rw [if_neg (by decide), hev]
    simp only [pyMaxBy]
    exact detectFormatFromSamples_noParse _ _ hev (by decide) (by decide)

/-- Helper: a sample only ever votes for one of the two configured
patterns. -/
theorem sampleVote_mem (s f : String) (h : sampleVote s = some f) :
    f = fmtDDMM ∨ f = fmtMMDD := by
  unfold sampleVote at h
  split at h
  · exact absurd h (by simp)
  · split at h
    · dsimp only [] at h
      split at h
      · split at h
        · split at h
          · left; injection h with h'; exact h'.symm
          · split at h
            · right; injection h with h'; exact h'.symm
            · exact absurd h (by simp)
        · exact absurd h (by simp)
      · exact absurd h (by simp)
    · exact absurd h (by simp)

/-- Helper: `bumpCount` preserves any key predicate that holds for the
bumped key. -/
theorem bumpCount_forall {P : String → Prop} (l : List (String × Nat)) (k : String)
    (hl : ∀ p ∈ l, P p.1) (hk : P k) : ∀ p ∈ bumpCount l k, P p.1 := by
  induction l with
  | nil =>
    intro p hp
    simp only [bumpCount, List.mem_singleton] at hp
    rw [hp]
    exact hk
  | cons q rest ih =>
    rcases q with ⟨k', n⟩
    intro p hp
    by_cases hq : k' = k
    · simp only [bumpCount, if_pos hq] at hp
      rcases List.mem_cons.mp hp with h1 | h1
      · rw [h1]; exact hl (k', n) (List.mem_cons_self _ _)
      · exact hl p (List.mem_cons_of_mem _ h1)
    · simp only [bumpCount, if_neg hq] at hp
      rcases List.mem_cons.mp hp with h1 | h1
      · rw [h1]; exact hl (k', n) (List.mem_cons_self _ _)
      · exact ih (fun p hp => hl p (List.mem_cons_of_mem _ hp)) p h1

/-- Helper: `bumpCount` keeps every count at least 1. -/
theorem bumpCount_pos (l : List (String × Nat)) (k : String)
    (hl : ∀ p ∈ l, 1 ≤ p.2) : ∀ p ∈ bumpCount l k, 1 ≤ p.2 := by
  induction l with
  | nil =>
    intro p hp
    simp only [bumpCount, List.mem_singleton] at hp
    rw [hp]
  | cons q rest ih =>
    rcases q with ⟨k', n⟩
    intro p hp
    by_cases hq : k' = k
    · simp only [bumpCount, if_pos hq] at hp
      rcases List.mem_cons.mp hp with h1 | h1
      · rw [h1]; exact Nat.le_add_left 1 n
      · exact hl p (List.mem_cons_of_mem _ h1)
    · simp only [bumpCount, if_neg hq] at hp
      rcases List.mem_cons.mp hp with h1 | h1
      · rw [h1]; exact hl (k', n) (List.mem_cons_self _ _)
      · exact ih (fun p hp => hl p (List.mem_cons_of_mem _ hp)) p h1

theorem lookupCount_bump_self (l : List (String × Nat)) (k : String) :
    lookupCount (bumpCount l k) k = lookupCount l k + 1 := by
  induction l with
  | nil => simp [bumpCount, lookupCount]
  | cons q rest ih =>
    rcases q with ⟨k', n⟩
    by_cases hq : k' = k <;> simp [bumpCount, lookupCount, hq, ih]

theorem lookupCount_bump_other (l : List (String × Nat)) (k q : String) (h : q ≠ k) :
    lookupCount (bumpCount l k) q = lookupCount l q := by
  induction l with
  | nil =>
    have hkq : ¬k = q := fun hh => h hh.symm
    simp [bumpCount, lookupCount, hkq]
  | cons p rest ih =>
    rcases p with ⟨k', n⟩
    by_cases hq : k' = k
    · subst hq
      have hkq : ¬k' = q := fun hh => h hh.symm
      simp [bumpCount, lookupCount, hkq]
    · by_cases hq2 : k' = q <;> simp [bumpCount, lookupCount, hq, hq2, ih, h]

/-- Helper: a key present in a positive-count tally has positive
looked-up count. -/
theorem lookupCount_mem_pos (l : List (String × Nat)) (q : String) (n : Nat)
    (hl : ∀ p ∈ l, 1 ≤ p.2) (hmem : (q, n) ∈ l) : 1 ≤ lookupCount l q := by
  induction l with
  | nil => simp at hmem
  | cons p rest ih =>
    rcases p with ⟨k', m⟩
    by_cases hq : k' = q
    · simpa [lookupCount, hq] using hl (k', m) (List.mem_cons_self _ _)
    · simp only [lookupCount, if_neg hq]
      rcases List.mem_cons.mp hmem with h1 | h1
      · rw [Prod.mk.injEq] at h1
        exact absurd h1.1.symm hq
      · exact ih (fun p hp => hl p (List.mem_cons_of_mem _ hp)) h1

theorem foldVotes_forall {P : String → Prop} (vs : List String)
    (hv : ∀ s f, sampleVote s = some f → P f) :
    ∀ acc, (∀ p ∈ acc, P p.1) → ∀ p ∈ vs.foldl voteStep acc, P p.1 := by
  induction vs with
  | nil => intro acc hacc p hp; exact hacc p hp
  | cons s rest ih =>
    intro acc hacc p hp
    rw [List.foldl_cons] at hp
    refine ih (voteStep acc s) ?_ p hp
    intro p' hp'
    unfold voteStep at hp'
    cases hsv : sampleVote s with
    | none => rw [hsv] at hp'; exact hacc p' hp'
    | some f => rw [hsv] at hp'; exact bumpCount_forall acc f hacc (hv s f hsv) p' hp'

theorem foldVotes_pos (vs : List String) :
    ∀ acc, (∀ p ∈ acc, 1 ≤ p.2) → ∀ p ∈ vs.foldl voteStep acc, 1 ≤ p.2 := by
  induction vs with
  | nil => intro acc hacc p hp; exact hacc p hp
  | cons s rest ih =>
    intro acc hacc p hp
    rw [List.foldl_cons] at hp
    refine ih (voteStep acc s) ?_ p hp
    intro p' hp'
    unfold voteStep at hp'
    cases hsv : sampleVote s with
    | none => rw [hsv] at hp'; exact hacc p' hp'
    | some f => rw [hsv] at hp'; exact bumpCount_pos acc f hacc p' hp'

theorem foldVotes_count_mono (vs : List String) (q : String) :
    ∀ acc, lookupCount acc q ≤ lookupCount (vs.foldl voteStep acc) q := by
  induction vs with
  | nil => intro acc; exact le_refl _
  | cons s rest ih =>
    intro acc
    rw [List.foldl_cons]
    refine le_trans ?_ (ih (voteStep acc s))
    unfold voteStep
    cases hsv : sampleVote s with
    | none => exact le_refl _
    | some f =>
      by_cases hqf : q = f
      · rw [hqf, lookupCount_bump_self]; exact Nat.le_succ _
      · rw [lookupCount_bump_other acc f q hqf]

theorem foldVotes_voter_pos (vs : List String) (q : String) :
    ∀ acc, (∃ s ∈ vs, sampleVote s = some q) →
      1 ≤ lookupCount (vs.foldl voteStep acc) q := by
  induction vs with
  | nil => intro acc h; simp at h
  | cons s rest ih =>
    intro acc ⟨s', hs', hv⟩
    rw [List.foldl_cons]
    rcases List.mem_cons.mp hs' with h1 | h1
    · refine le_trans ?_ (foldVotes_count_mono rest q (voteStep acc s))
      unfold voteStep
      rw [h1] at hv
      rw [hv, lookupCount_bump_self]
      exact Nat.le_add_left 1 _
    · exact ih (voteStep acc s) ⟨s', h1, hv⟩

theorem foldVotes_no_voter (vs : List String) (q : String)
    (hn : ∀ s ∈ vs, sampleVote s ≠ some q) :
    ∀ acc, lookupCount (vs.foldl voteStep acc) q = lookupCount acc q := by
  induction vs with
  | nil => intro acc; rfl
  | cons s rest ih =>
    intro acc
    rw [List.foldl_cons]
    have hrest := ih (fun s' hs' => hn s' (List.mem_cons_of_mem _ hs')) (voteStep acc s)
    rw [hrest]
    unfold voteStep
    cases hsv : sampleVote s with
    | none => rfl
    | some f =>
      have hfq : q ≠ f := by
        intro hh
        exact hn s (List.mem_cons_self _ _) (hh ▸ hsv)
      exact lookupCount_bump_other acc f q hfq

theorem foldBest_mem {α β : Type} [LinearOrder β] (f : α → β) (xs : List α) :
    ∀ acc, xs.foldl (fun best y => if f best < f y then y else best) acc = acc ∨
      xs.foldl (fun best y => if f best < f y then y else best) acc ∈ xs := by
  induction xs with
  | nil => intro acc; left; rfl
  | cons y ys ih =>
    intro acc
    rw [List.foldl_cons]
    rcases ih (if f acc < f y then y else acc) with h | h
    · rw [h]
      by_cases hc : f acc < f y
      · right; rw [if_pos hc]; exact List.mem_cons_self _ _
      · left; rw [if_neg hc]
    · right; exact List.mem_cons_of_mem _ h

/-- Helper: Python `max` returns an element of its argument. -/
theorem pyMaxBy_mem {α β : Type} [LinearOrder β] (f : α → β) (l : List α) (x : α)
    (h : pyMaxBy f l = some x) : x ∈ l := by
  cases l with
  | nil => simp [pyMaxBy] at h
  | cons a as =>
    simp only [pyMaxBy, Option.some.injEq] at h
    rcases foldBest_mem f as a with h1 | h1
    · rw [h1] at h; rw [← h]; exact List.mem_cons_self _ _
    · rw [← h]; exact List.mem_cons_of_mem _ h1

/-- C4 (amended): for every sample pool of at most 500 cleaned samples
containing at least one *dot-separated* date token whose first two
integer components pin the format (exactly one exceeds 12 — a vote for
pattern `P`), and containing no token voting for the other pattern,
detection returns `P` straight from the evidence phase, regardless of
what the scored fallback would choose.  (The code inspects only
dot-separated tokens, matching its two dotted candidate patterns.) -/
theorem detectDateFormat_unambiguous (now : DateTime) (samples : List String) (P : String)
    (hP : P = fmtDDMM ∨ P = fmtMMDD)
    (_h500 : (cleanSamples samples).length ≤ 500)
    (hvote : ∃ s ∈ cleanSamples samples, sampleVote s = some P)
    (hnone : ∀ s ∈ cleanSamples samples, sampleVote s ≠ some (otherFmt P)) :
    detectDateFormat now samples = some P := by
  have hvs_ne : cleanSamples samples ≠ [] := by
    rcases hvote with ⟨s, hs, _⟩
    intro h
    rw [h] at hs
    simp at hs
  have hpos : 1 ≤ lookupCount (findUnambiguousEvidence (cleanSamples samples)) P :=
    foldVotes_voter_pos (cleanSamples samples) P [] hvote
  have hzero : lookupCount (findUnambiguousEvidence (cleanSamples samples)) (otherFmt P) = 0 :=
    foldVotes_no_voter (cleanSamples samples) (otherFmt P) hnone []
  have hposall : ∀ p ∈ findUnambiguousEvidence (cleanSamples samples), 1 ≤ p.2 :=
    foldVotes_pos (cleanSamples samples) [] (by simp)
  have hkeys : ∀ p ∈ findUnambiguousEvidence (cleanSamples samples), p.1 = P := by
    intro p hp
    have hd := foldVotes_forall (P := fun x => x = fmtDDMM ∨ x = fmtMMDD)
      (cleanSamples samples) (fun s f h => sampleVote_mem s f h) [] (by simp) p hp
    by_contra hne
    have hother : p.1 = otherFmt P := by
      have hDM : fmtMMDD ≠ fmtDDMM := by decide
      rcases hP with h1 | h1 <;> rcases hd with h2 | h2 <;>
        simp only [h1, h2, otherFmt, if_pos rfl, if_neg hDM] at hne ⊢ <;> tauto
    have hmem1 : (p.1, p.2) ∈ findUnambiguousEvidence (cleanSamples samples) := by
      simpa using hp
    have hge := lookupCount_mem_pos _ p.1 p.2 hposall hmem1
    rw [hother, hzero] at hge
    simp at hge
  have hev_ne : findUnambiguousEvidence (cleanSamples samples) ≠ [] := by
    intro h
    rw [h] at hpos
    simp [lookupCount] at hpos
  rcases hevl : findUnambiguousEvidence (cleanSamples samples) with _ | ⟨e, es⟩
  · exact absurd hevl hev_ne
  · rcases hfold : es.foldl
        (fun best y => if Prod.snd best < Prod.snd y then y else best) e with ⟨r1, r2⟩
    have hmax : pyMaxBy Prod.snd (findUnambiguousEvidence (cleanSamples samples))
        = some (r1, r2) := by
      rw [hevl]
      simp only [pyMaxBy, Option.some.injEq]
      exact hfold
    have hr_mem : (r1, r2) ∈ findUnambiguousEvidence (cleanSamples samples) := by
      rw [hevl]
      rcases foldBest_mem Prod.snd es e with h1 | h1
      · rw [hfold] at h1; rw [← h1]; exact List.mem_cons_self _ _
      · rw [hfold] at h1; exact List.mem_cons_of_mem _ h1
    have hr1 : r1 = P := hkeys (r1, r2) hr_mem
    unfold detectDateFormat
    rw [if_neg hvs_ne, hmax]
    exact congrArg some hr1

/-- C4 witness: one sample `"13.01.2024 10:30:45"` (day 13 > 12) pins
day-first; the theorem returns `%d.%m.%Y %H:%M:%S`. -/
theorem detectDateFormat_unambiguous_witness :
    detectDateFormat ⟨2026, 10, 12, 0, 0, 0⟩ ["13.01.2024 10:30:45"] = some fmtDDMM :=
  detectDateFormat_unambiguous ⟨2026, 10, 12, 0, 0, 0⟩ ["13.01.2024 10:30:45"] fmtDDMM
    (Or.inl rfl) (by decide)
    ⟨"13.01.2024 10:30:45", by decide, by decide⟩
    (by decide)

/-- C4 counterexample: the sample `"01/13/2024 10:00:00"` carries
unambiguous month-first evidence (second component 13 > 12, first ≤ 12
— the very rule the code applies to dotted tokens, `evidencePattern`),
but the evidence phase only inspects dot-separated tokens, neither
dotted pattern parses the sample, and detection falls back to the
day-first default `%d.%m.%Y %H:%M:%S` — not the pattern consistent with
the evidence. -/
theorem detectDateFormat_evidence_ignored :
    evidencePattern 1 13 = some fmtMMDD ∧
      detectDateFormat ⟨2026, 10, 12, 0, 0, 0⟩ ["01/13/2024 10:00:00"] = some fmtDDMM ∧
      fmtDDMM ≠ fmtMMDD := by
  refine ⟨by decide, ?_, by decide⟩
  have hclean : cleanSamples ["01/13/2024 10:00:00"] = ["01/13/2024 10:00:00"] := by decide
  have hev : findUnambiguousEvidence ["01/13/2024 10:00:00"] = [] := by decide
  simp only [detectDateFormat, hclean]
  rw [if_neg (by decide), hev]
  simp only [pyMaxBy]
  exact detectFormatFromSamples_noParse _ _ hev (by decide) (by decide)

theorem ipSection_total (st : Stats) (f : Frame) :
    (ipSection st f).total_events = st.total_events := by
  unfold ipSection; split_ifs <;> rfl

theorem ipSection_src (st : Stats) (f : Frame) :
    (ipSection st f).unique_source_ips =
      (if "Source IP Address" ∈ f.cols then
        insertAll st.unique_source_ips (goodStrs (colVals f "Source IP Address"))
      else st.unique_source_ips) := by
  unfold ipSection; split_ifs <;> rfl

theorem ipSection_dst (st : Stats) (f : Frame) :
    (ipSection st f).unique_dest_ips =
      (if "Destination IP Address" ∈ f.cols then
        insertAll st.unique_dest_ips (goodStrs (colVals f "Destination IP Address"))
      else st.unique_dest_ips) := by
  unfold ipSection; split_ifs <;> rfl

theorem ipSection_pps (st : Stats) (f : Frame) : (ipSection st f).max_pps = st.max_pps := by
  unfold ipSection; split_ifs <;> rfl

theorem ipSection_bps (st : Stats) (f : Frame) : (ipSection st f).max_bps = st.max_bps := by
  unfold ipSection; split_ifs <;> rfl

theorem attackSection_total (st : Stats) (f : Frame) :
    (attackSection st f).total_events = st.total_events := by
  unfold attackSection; split_ifs <;> rfl

theorem attackSection_src (st : Stats) (f : Frame) :
    (attackSection st f).unique_source_ips = st.unique_source_ips := by
  unfold attackSection; split_ifs <;> rfl

theorem attackSection_dst (st : Stats) (f : Frame) :
    (attackSection st f).unique_dest_ips = st.unique_dest_ips := by
  unfold attackSection; split_ifs <;> rfl

theorem attackSection_pps (st : Stats) (f : Frame) :
    (attackSection st f).max_pps = st.max_pps := by
  unfold attackSection; split_ifs <;> rfl

theorem attackSection_bps (st : Stats) (f : Frame) :
    (attackSection st f).max_bps = st.max_bps := by
  unfold attackSection; split_ifs <;> rfl

theorem hourlySection_total (parse : String → Option DateTime) (st : Stats) (f : Frame) :
    (hourlySection parse st f).total_events = st.total_events := by
  unfold hourlySection; split_ifs <;> rfl

theorem hourlySection_src (parse : String → Option DateTime) (st : Stats) (f : Frame) :
    (hourlySection parse st f).unique_source_ips = st.unique_source_ips := by
  unfold hourlySection; split_ifs <;> rfl

theorem hourlySection_dst (parse : String → Option DateTime) (st : Stats) (f : Frame) :
    (hourlySection parse st f).unique_dest_ips = st.unique_dest_ips := by
  unfold hourlySection; split_ifs <;> rfl

theorem hourlySection_pps (parse : String → Option DateTime) (st : Stats) (f : Frame) :
    (hourlySection parse st f).max_pps = st.max_pps := by
  unfold hourlySection; split_ifs <;> rfl

theorem hourlySection_bps (parse : String → Option DateTime) (st : Stats) (f : Frame) :
    (hourlySection parse st f).max_bps = st.max_bps := by
  unfold hourlySection; split_ifs <;> rfl

theorem preNumeric_total (st : Stats) (f : Frame) :
    (preNumeric st f).total_events = st.total_events + f.rows.length := by
  unfold preNumeric
  rw [show (attackSection (ipSection { st with total_events := st.total_events + f.rows.length } f) f).total_events = st.total_events + f.rows.length from by
    rw [attackSection_total, ipSection_total]]

theorem preNumeric_src (st : Stats) (f : Frame) :
    (preNumeric st f).unique_source_ips =
      (if "Source IP Address" ∈ f.cols then
        insertAll st.unique_source_ips (goodStrs (colVals f "Source IP Address"))
      else st.unique_source_ips) := by
  unfold preNumeric
  rw [show (attackSection (ipSection { st with total_events := st.total_events + f.rows.length } f) f).unique_source_ips = _ from by
    rw [attackSection_src, ipSection_src]]

theorem preNumeric_dst (st : Stats) (f : Frame) :
    (preNumeric st f).unique_dest_ips =
      (if "Destination IP Address" ∈ f.cols then
        insertAll st.unique_dest_ips (goodStrs (colVals f "Destination IP Address"))
      else st.unique_dest_ips) := by
  unfold preNumeric
  rw [show (attackSection (ipSection { st with total_events := st.total_events + f.rows.length } f) f).unique_dest_ips = _ from by
    rw [attackSection_dst, ipSection_dst]]

theorem preNumeric_pps (st : Stats) (f : Frame) :
    (preNumeric st f).max_pps = st.max_pps := by
  unfold preNumeric
  rw [show (attackSection (ipSection { st with total_events := st.total_events + f.rows.length } f) f).max_pps = st.max_pps from by
    rw [attackSection_pps, ipSection_pps]]

theorem preNumeric_bps (st : Stats) (f : Frame) :
    (preNumeric st f).max_bps = st.max_bps := by
  unfold preNumeric
  rw [show (attackSection (ipSection { st with total_events := st.total_events + f.rows.length } f) f).max_bps = st.max_bps from by
    rw [attackSection_bps, ipSection_bps]]

theorem postNumeric_total (parse : String → Option DateTime) (st : Stats) (f : Frame) :
    (postNumeric parse st f).total_events = st.total_events := by
  unfold postNumeric
  rw [show (hourlySection parse st f).total_events = st.total_events from
    hourlySection_total parse st f]

theorem postNumeric_src (parse : String → Option DateTime) (st : Stats) (f : Frame) :
    (postNumeric parse st f).unique_source_ips = st.unique_source_ips := by
  unfold postNumeric
  rw [show (hourlySection parse st f).unique_source_ips = st.unique_source_ips from
    hourlySection_src parse st f]

theorem postNumeric_dst (parse : String → Option DateTime) (st : Stats) (f : Frame) :
    (postNumeric parse st f).unique_dest_ips = st.unique_dest_ips := by
  unfold postNumeric
  rw [show (hourlySection parse st f).unique_dest_ips = st.unique_dest_ips from
    hourlySection_dst parse st f]

theorem postNumeric_pps (parse : String → Option DateTime) (st : Stats) (f : Frame) :
    (postNumeric parse st f).max_pps = st.max_pps := by
  unfold postNumeric
  rw [show (hourlySection parse st f).max_pps = st.max_pps from hourlySection_pps parse st f]

theorem postNumeric_bps (parse : String → Option DateTime) (st : Stats) (f : Frame) :
    (postNumeric parse st f).max_bps = st.max_bps := by
  unfold postNumeric
  rw [show (hourlySection parse st f).max_bps = st.max_bps from hourlySection_bps parse st f]

theorem applyNumericCol_base (st : Stats) (f : Frame) (k : NumKey) (vals : List Cell) :
    (applyNumericCol st f k vals).total_events = st.total_events ∧
    (applyNumericCol st f k vals).unique_source_ips = st.unique_source_ips ∧
    (applyNumericCol st f k vals).unique_dest_ips = st.unique_dest_ips := by
  cases k <;> (unfold applyNumericCol; dsimp only []; split_ifs <;> exact ⟨rfl, rfl, rfl⟩)

theorem applyNumericCol_pps_mono (st : Stats) (f : Frame) (k : NumKey) (vals : List Cell) :
    st.max_pps ≤ (applyNumericCol st f k vals).max_pps := by
  cases k <;> (unfold applyNumericCol; dsimp only []; split_ifs) <;>
    first
    | exact le_refl _
    | exact le_of_lt (by assumption)

theorem applyNumericCol_bps_mono (st : Stats) (f : Frame) (k : NumKey) (vals : List Cell) :
    st.max_bps ≤ (applyNumericCol st f k vals).max_bps := by
  cases k <;> (unfold applyNumericCol; dsimp only []; split_ifs) <;>
    first
    | exact le_refl _
    | exact le_of_lt (by assumption)

theorem numericLoop_base (f : Frame) (ts : List (Option String × NumKey)) :
    ∀ st : Stats,
      (numericLoop st f ts).1.total_events = st.total_events ∧
      (numericLoop st f ts).1.unique_source_ips = st.unique_source_ips ∧
      (numericLoop st f ts).1.unique_dest_ips = st.unique_dest_ips := by
  induction ts with
  | nil => intro st; exact ⟨rfl, rfl, rfl⟩
  | cons p rest ih =>
    intro st
    rcases p with ⟨oc, k⟩
    cases oc with
    | none => simp only [numericLoop]; exact ih st
    | some c =>
      simp only [numericLoop]
      split_ifs with h1 h2
      · exact ⟨rfl, rfl, rfl⟩
      · have ha := applyNumericCol_base st f k (colVals f c)
        have hr := ih (applyNumericCol st f k (colVals f c))
        exact ⟨hr.1.trans ha.1, hr.2.1.trans ha.2.1, hr.2.2.trans ha.2.2⟩
      · exact ih st

theorem numericLoop_max_mono (f : Frame) (ts : List (Option String × NumKey)) :
    ∀ st : Stats,
      st.max_pps ≤ (numericLoop st f ts).1.max_pps ∧
      st.max_bps ≤ (numericLoop st f ts).1.max_bps := by
  induction ts with
  | nil => intro st; exact ⟨le_refl _, le_refl _⟩
  | cons p rest ih =>
    intro st
    rcases p with ⟨oc, k⟩
    cases oc with
    | none => simp only [numericLoop]; exact ih st
    | some c =>
      simp only [numericLoop]
      split_ifs with h1 h2
      · exact ⟨le_refl _, le_refl _⟩
      · have hr := ih (applyNumericCol st f k (colVals f c))
        exact ⟨le_trans (applyNumericCol_pps_mono st f k (colVals f c)) hr.1,
               le_trans (applyNumericCol_bps_mono st f k (colVals f c)) hr.2⟩
      · exact ih st

/-- Helper: the unique-IP sets only ever grow. -/
theorem subset_insertAll (l : List String) : ∀ s : Finset String, s ⊆ insertAll s l := by
  induction l with
  | nil => intro s; exact Finset.Subset.refl s
  | cons x xs ih =>
    intro s
    exact (Finset.subset_insert x s).trans (ih (insert x s))

/-- C8: one batch update never decreases the event total, either
unique-IP set size, or either tracked maximum — also when a malformed
numeric cell aborts the rest of the update. -/
theorem updateMonthStats_monotone (parse : String → Option DateTime) (st : Stats) (f : Frame) :
    st.total_events ≤ (updateMonthStats parse st f).total_events ∧
    st.unique_source_ips.card ≤ (updateMonthStats parse st f).unique_source_ips.card ∧
    st.unique_dest_ips.card ≤ (updateMonthStats parse st f).unique_dest_ips.card ∧
    st.max_pps ≤ (updateMonthStats parse st f).max_pps ∧
    st.max_bps ≤ (updateMonthStats parse st f).max_bps := by
  have hbase := numericLoop_base f (numericTargets f.cols) (preNumeric st f)
  have hmono := numericLoop_max_mono f (numericTargets f.cols) (preNumeric st f)
  have hsrc_pre : st.unique_source_ips ⊆ (preNumeric st f).unique_source_ips := by
    rw [preNumeric_src]
    split_ifs
    · exact subset_insertAll _ _
    · exact Finset.Subset.refl _
  have hdst_pre : st.unique_dest_ips ⊆ (preNumeric st f).unique_dest_ips := by
    rw [preNumeric_dst]
    split_ifs
    · exact subset_insertAll _ _
    · exact Finset.Subset.refl _
  unfold updateMonthStats
  dsimp only []
  split_ifs with hb
  · refine ⟨?_, ?_, ?_, ?_, ?_⟩
    · rw [hbase.1, preNumeric_total]; exact Nat.le_add_right _ _
    · rw [hbase.2.1]; exact Finset.card_le_card hsrc_pre
    · rw [hbase.2.2]; exact Finset.card_le_card hdst_pre
    · calc st.max_pps = (preNumeric st f).max_pps := (preNumeric_pps st f).symm
        _ ≤ _ := hmono.1
    · calc st.max_bps = (preNumeric st f).max_bps := (preNumeric_bps st f).symm
        _ ≤ _ := hmono.2
  · refine ⟨?_, ?_, ?_, ?_, ?_⟩
    · rw [postNumeric_total, hbase.1, preNumeric_total]; exact Nat.le_add_right _ _
    · rw [postNumeric_src, hbase.2.1]; exact Finset.card_le_card hsrc_pre
    · rw [postNumeric_dst, hbase.2.2]; exact Finset.card_le_card hdst_pre
    · rw [postNumeric_pps]
      calc st.max_pps = (preNumeric st f).max_pps := (preNumeric_pps st f).symm
        _ ≤ _ := hmono.1
    · rw [postNumeric_bps]
      calc st.max_bps = (preNumeric st f).max_bps := (preNumeric_bps st f).symm
        _ ≤ _ := hmono.2

theorem foldl_max_assoc (xs : List ℚ) : ∀ q x : ℚ,
    List.foldl max (max q x) xs = max q (List.foldl max x xs) := by
  induction xs with
  | nil => intro q x; rfl
  | cons y ys ih =>
    intro q x
    rw [List.foldl_cons, List.foldl_cons, max_assoc, ih]

theorem applyNumericCol_pps_eq (st : Stats) (f : Frame) (vals : List Cell) :
    (applyNumericCol st f NumKey.pps vals).max_pps
      = List.foldl max st.max_pps (numericVals vals) := by
  unfold applyNumericCol
  dsimp only []
  by_cases h : numericVals vals = []
  · rw [if_pos h, h]; rfl
  · rw [if_neg h]
    rcases hnv : numericVals vals with _ | ⟨x, xs⟩
    · exact absurd hnv h
    · rw [List.foldl_cons, foldl_max_assoc]
      split_ifs with hlt
      · exact (max_eq_right (le_of_lt hlt)).symm
      · exact (max_eq_left (not_lt.mp hlt)).symm

theorem applyNumericCol_bps_eq (st : Stats) (f : Frame) (vals : List Cell) :
    (applyNumericCol st f NumKey.bps vals).max_bps
      = List.foldl max st.max_bps (numericVals vals) := by
  unfold applyNumericCol
  dsimp only []
  by_cases h : numericVals vals = []
  · rw [if_pos h, h]; rfl
  · rw [if_neg h]
    rcases hnv : numericVals vals with _ | ⟨x, xs⟩
    · exact absurd hnv h
    · rw [List.foldl_cons, foldl_max_assoc]
      split_ifs with hlt
      · exact (max_eq_right (le_of_lt hlt)).symm
      · exact (max_eq_left (not_lt.mp hlt)).symm

theorem applyNumericCol_pps_keep (st : Stats) (f : Frame) (k : NumKey) (vals : List Cell)
    (h : k ≠ NumKey.pps) : (applyNumericCol st f k vals).max_pps = st.max_pps := by
  cases k
  · unfold applyNumericCol; dsimp only []; split_ifs <;> rfl
  · unfold applyNumericCol; dsimp only []; split_ifs <;> rfl
  · exact absurd rfl h
  · unfold applyNumericCol; dsimp only []; split_ifs <;> rfl

theorem applyNumericCol_bps_keep (st : Stats) (f : Frame) (k : NumKey) (vals : List Cell)
    (h : k ≠ NumKey.bps) : (applyNumericCol st f k vals).max_bps = st.max_bps := by
  cases k
  · unfold applyNumericCol; dsimp only []; split_ifs <;> rfl
  · unfold applyNumericCol; dsimp only []; split_ifs <;> rfl
  · unfold applyNumericCol; dsimp only []; split_ifs <;> rfl
  · exact absurd rfl h

theorem applyNumericCol_nilVals (st : Stats) (f : Frame) (k : NumKey) :
    applyNumericCol st f k [] = st := by
  cases k <;> rfl

theorem any_bad_false {l : List Cell} (h : l.all (fun v => !badNumeric v) = true) :
    l.any badNumeric = false := by
  rw [List.all_eq_true] at h
  by_contra hne
  rw [← ne_eq, Bool.ne_false_iff, List.any_eq_true] at hne
  rcases hne with ⟨x, hx, hbx⟩
  have hh := h x hx
  rw [hbx] at hh
  simp at hh

/-- Helper: on a frame whose tracked numeric columns are free of
guard-passing unparseable cells, the numeric loop never aborts and is
plainly the left fold of the per-column update. -/
theorem numericLoop_good_eq (f : Frame) :
    ∀ (ts : List (Option String × NumKey)) (st : Stats),
      (∀ p ∈ ts, goodColB f p.1 = true) →
      (∀ p c, p ∈ ts → p.1 = some c → c ∈ f.cols) →
      numericLoop st f ts =
        (ts.foldl (fun acc p => applyNumericCol acc f p.2 (targetVals f p.1)) st, false) := by
  intro ts
  induction ts with
  | nil => intro st _ _; rfl
  | cons p rest ih =>
    intro st hg hm
    rcases p with ⟨oc, k⟩
    cases oc with
    | none =>
      simp only [numericLoop, List.foldl_cons]
      dsimp only [targetVals]
      rw [applyNumericCol_nilVals]
      exact ih st (fun p hp => hg p (List.mem_cons_of_mem _ hp))
        (fun p c hp h1 => hm p c (List.mem_cons_of_mem _ hp) h1)
    | some c =>
      have hcmem : c ∈ f.cols := hm (some c, k) c (List.mem_cons_self _ _) rfl
      have hany : (colVals f c).any badNumeric = false :=
        any_bad_false (hg (some c, k) (List.mem_cons_self _ _))
      simp only [numericLoop, List.foldl_cons]
      rw [if_pos hcmem, if_neg (by rw [hany]; exact Bool.false_ne_true)]
      exact ih (applyNumericCol st f k (colVals f c))
        (fun p hp => hg p (List.mem_cons_of_mem _ hp))
        (fun p c' hp h1 => hm p c' (List.mem_cons_of_mem _ hp) h1)

theorem updateMonthStats_total_eq (parse : String → Option DateTime) (st : Stats) (f : Frame) :
    (updateMonthStats parse st f).total_events = st.total_events + f.rows.length := by
  unfold updateMonthStats
  dsimp only []
  by_cases hb : (numericLoop (preNumeric st f) f (numericTargets f.cols)).2 = true
  · rw [if_pos hb, (numericLoop_base f (numericTargets f.cols) (preNumeric st f)).1,
      preNumeric_total]
  · rw [if_neg hb, postNumeric_total,
      (numericLoop_base f (numericTargets f.cols) (preNumeric st f)).1, preNumeric_total]

theorem updateMonthStats_src_eq (parse : String → Option DateTime) (st : Stats) (f : Frame) :
    (updateMonthStats parse st f).unique_source_ips =
      (if "Source IP Address" ∈ f.cols then
        insertAll st.unique_source_ips (goodStrs (colVals f "Source IP Address"))
      else st.unique_source_ips) := by
  unfold updateMonthStats
  dsimp only []
  by_cases hb : (numericLoop (preNumeric st f) f (numericTargets f.cols)).2 = true
  · rw [if_pos hb, (numericLoop_base f (numericTargets f.cols) (preNumeric st f)).2.1,
      preNumeric_src]
  · rw [if_neg hb, postNumeric_src,
      (numericLoop_base f (numericTargets f.cols) (preNumeric st f)).2.1, preNumeric_src]

theorem updateMonthStats_dst_eq (parse : String → Option DateTime) (st : Stats) (f : Frame) :
    (updateMonthStats parse st f).unique_dest_ips =
      (if "Destination IP Address" ∈ f.cols then
        insertAll st.unique_dest_ips (goodStrs (colVals f "Destination IP Address"))
      else st.unique_dest_ips) := by
  unfold updateMonthStats
  dsimp only []
  by_cases hb : (numericLoop (preNumeric st f) f (numericTargets f.cols)).2 = true
  · rw [if_pos hb, (numericLoop_base f (numericTargets f.cols) (preNumeric st f)).2.2,
      preNumeric_dst]
  · rw [if_neg hb, postNumeric_dst,
      (numericLoop_base f (numericTargets f.cols) (preNumeric st f)).2.2, preNumeric_dst]

theorem resolveVariant_mem (vs cols : List String) (c : String)
    (h : resolveVariant vs cols = some c) : c ∈ cols := by
  have hf := List.find?_some h
  simpa using hf

theorem targets_mem_cols (f : Frame) :
    ∀ p c, p ∈ numericTargets f.cols → p.1 = some c → c ∈ f.cols := by
  intro p c hp h1
  simp only [numericTargets, List.mem_cons, List.not_mem_nil, or_false] at hp
  rcases hp with h | h | h | h <;>
    (rw [h] at h1; exact resolveVariant_mem _ _ _ h1)

theorem goodFrame_targets (f : Frame) (hg : goodFrame f = true) :
    ∀ p ∈ numericTargets f.cols, goodColB f p.1 = true := by
  rw [goodFrame, List.all_eq_true] at hg
  exact hg

/-- Helper: on a good frame the whole batch update is the fold of the
four per-column numeric updates over the pre-numeric sections, followed
by the post-numeric sections — no abort. -/
theorem updateMonthStats_good_eq (parse : String → Option DateTime) (st : Stats) (f : Frame)
    (hg : goodFrame f = true) :
    updateMonthStats parse st f =
      postNumeric parse
        ((numericTargets f.cols).foldl
          (fun acc p => applyNumericCol acc f p.2 (targetVals f p.1)) (preNumeric st f)) f := by
  unfold updateMonthStats
  dsimp only []
  rw [numericLoop_good_eq f (numericTargets f.cols) (preNumeric st f)
    (goodFrame_targets f hg) (targets_mem_cols f)]
  rfl

theorem updateMonthStats_pps_eq (parse : String → Option DateTime) (st : Stats) (f : Frame)
    (hg : goodFrame f = true) :
    (updateMonthStats parse st f).max_pps = List.foldl max st.max_pps (ppsVals f) := by
  rw [updateMonthStats_good_eq parse st f hg, postNumeric_pps]
  simp only [numericTargets, List.foldl_cons, List.foldl_nil]
  rw [applyNumericCol_pps_keep _ _ _ _ (by decide), applyNumericCol_pps_eq,
    applyNumericCol_pps_keep _ _ _ _ (by decide), applyNumericCol_pps_keep _ _ _ _ (by decide),
    preNumeric_pps]
  rfl

theorem updateMonthStats_bps_eq (parse : String → Option DateTime) (st : Stats) (f : Frame)
    (hg : goodFrame f = true) :
    (updateMonthStats parse st f).max_bps = List.foldl max st.max_bps (bpsVals f) := by
  rw [updateMonthStats_good_eq parse st f hg, postNumeric_bps]
  simp only [numericTargets, List.foldl_cons, List.foldl_nil]
  rw [applyNumericCol_bps_eq, applyNumericCol_bps_keep _ _ _ _ (by decide),
    applyNumericCol_bps_keep _ _ _ _ (by decide), applyNumericCol_bps_keep _ _ _ _ (by decide),
    preNumeric_bps]
  rfl

theorem colVals_append (cols : List String) (a b : List CsvRow) (c : String) :
    colVals ⟨cols, a ++ b⟩ c = colVals ⟨cols, a⟩ c ++ colVals ⟨cols, b⟩ c := by
  simp [colVals]

theorem goodStrs_append (v1 v2 : List Cell) :
    goodStrs (v1 ++ v2) = goodStrs v1 ++ goodStrs v2 := by
  simp [goodStrs]

theorem numericVals_append (v1 v2 : List Cell) :
    numericVals (v1 ++ v2) = numericVals v1 ++ numericVals v2 := by
  simp [numericVals]

theorem insertAll_append (s : Finset String) (l1 l2 : List String) :
    insertAll s (l1 ++ l2) = insertAll (insertAll s l1) l2 := by
  simp [insertAll, List.foldl_append]

theorem ppsVals_append (cols : List String) (a b : List CsvRow) :
    ppsVals ⟨cols, a ++ b⟩ = ppsVals ⟨cols, a⟩ ++ ppsVals ⟨cols, b⟩ := by
  unfold ppsVals
  cases hrv : resolveVariant ppsVariants cols with
  | none => simp [targetVals, hrv, numericVals]
  | some c => simp [targetVals, hrv, colVals_append, numericVals_append]

theorem bpsVals_append (cols : List String) (a b : List CsvRow) :
    bpsVals ⟨cols, a ++ b⟩ = bpsVals ⟨cols, a⟩ ++ bpsVals ⟨cols, b⟩ := by
  unfold bpsVals
  cases hrv : resolveVariant bpsVariants cols with
  | none => simp [targetVals, hrv, numericVals]
  | some c => simp [targetVals, hrv, colVals_append, numericVals_append]

/-- Helper: removing rows can only keep a frame good. -/
theorem goodFrame_sub (cols : List String) (rows rows' : List CsvRow)
    (hsub : ∀ r ∈ rows', r ∈ rows) (hg : goodFrame ⟨cols, rows⟩ = true) :
    goodFrame ⟨cols, rows'⟩ = true := by
  rw [goodFrame, List.all_eq_true] at hg ⊢
  intro p hp
  have hh := hg p hp
  cases hoc : p.1 with
  | none => simp [goodColB, hoc]
  | some c =>
    rw [hoc] at hh
    simp only [goodColB] at hh ⊢
    rw [List.all_eq_true] at hh ⊢
    intro v hv
    simp only [colVals, List.mem_map] at hv
    rcases hv with ⟨r, hr, hrv⟩
    refine hh v ?_
    simp only [colVals, List.mem_map]
    exact ⟨r, hsub r hr, hrv⟩

theorem goodFrame_append (cols : List String) (a b : List CsvRow)
    (ha : goodFrame ⟨cols, a⟩ = true) (hb : goodFrame ⟨cols, b⟩ = true) :
    goodFrame ⟨cols, a ++ b⟩ = true := by
  rw [goodFrame, List.all_eq_true] at ha hb ⊢
  intro p hp
  have h1 := ha p hp
  have h2 := hb p hp
  cases hoc : p.1 with
  | none => simp [goodColB, hoc]
  | some c =>
    rw [hoc] at h1 h2
    simp only [goodColB] at h1 h2 ⊢
    rw [show colVals ⟨cols, a ++ b⟩ c = colVals ⟨cols, a⟩ c ++ colVals ⟨cols, b⟩ c from
      colVals_append cols a b c]
    rw [List.all_append, h1, h2]
    rfl

theorem filterStep_cols (fr : Frame) (p : String × List String) :
    (filterStep fr p).cols = fr.cols := by
  unfold filterStep; split_ifs <;> rfl

theorem applyDataFilters_cols (filters : List (String × List String)) :
    ∀ fr : Frame, (applyDataFilters filters fr).cols = fr.cols := by
  induction filters with
  | nil => intro fr; rfl
  | cons p F ih =>
    intro fr
    have h1 : applyDataFilters (p :: F) fr = applyDataFilters F (filterStep fr p) := rfl
    rw [h1, ih, filterStep_cols]

theorem applyDataFilters_rows_sub (filters : List (String × List String)) :
    ∀ (fr : Frame) (r : CsvRow), r ∈ (applyDataFilters filters fr).rows → r ∈ fr.rows := by
  induction filters with
  | nil => intro fr r hr; exact hr
  | cons p F ih =>
    intro fr r hr
    have h1 : applyDataFilters (p :: F) fr = applyDataFilters F (filterStep fr p) := rfl
    rw [h1] at hr
    have h2 := ih (filterStep fr p) r hr
    unfold filterStep at h2
    split_ifs at h2
    · dsimp only [] at h2
      exact List.mem_of_mem_filter h2
    · exact h2

theorem filterStep_append (cols : List String) (a b : List CsvRow) (p : String × List String) :
    filterStep ⟨cols, a ++ b⟩ p
      = ⟨cols, (filterStep ⟨cols, a⟩ p).rows ++ (filterStep ⟨cols, b⟩ p).rows⟩ := by
  unfold filterStep
  split_ifs <;> simp [List.filter_append]

theorem frame_eta (fr : Frame) (cols : List String) (h : fr.cols = cols) :
    (⟨cols, fr.rows⟩ : Frame) = fr := by
  cases fr with
  | mk c0 r0 =>
    cases h
    rfl

theorem applyDataFilters_append (filters : List (String × List String)) :
    ∀ (cols : List String) (a b : List CsvRow),
      applyDataFilters filters ⟨cols, a ++ b⟩
        = ⟨cols, (applyDataFilters filters ⟨cols, a⟩).rows
            ++ (applyDataFilters filters ⟨cols, b⟩).rows⟩ := by
  induction filters with
  | nil => intro cols a b; rfl
  | cons p F ih =>
    intro cols a b
    have h1 : applyDataFilters (p :: F) ⟨cols, a ++ b⟩
        = applyDataFilters F (filterStep ⟨cols, a ++ b⟩ p) := rfl
    have h2 : applyDataFilters (p :: F) ⟨cols, a⟩
        = applyDataFilters F (filterStep ⟨cols, a⟩ p) := rfl
    have h3 : applyDataFilters (p :: F) ⟨cols, b⟩
        = applyDataFilters F (filterStep ⟨cols, b⟩ p) := rfl
    rw [h1, h2, h3, filterStep_append,
      ih cols (filterStep ⟨cols, a⟩ p).rows (filterStep ⟨cols, b⟩ p).rows,
      frame_eta (filterStep ⟨cols, a⟩ p) cols (filterStep_cols _ _),
      frame_eta (filterStep ⟨cols, b⟩ p) cols (filterStep_cols _ _)]

theorem applyDataFilters_nilRows (filters : List (String × List String)) :
    ∀ cols : List String, applyDataFilters filters ⟨cols, []⟩ = ⟨cols, []⟩ := by
  induction filters with
  | nil => intro cols; rfl
  | cons p F ih =>
    intro cols
    have h1 : applyDataFilters (p :: F) ⟨cols, ([] : List CsvRow)⟩
        = applyDataFilters F (filterStep ⟨cols, []⟩ p) := rfl
    have h2 : filterStep (⟨cols, []⟩ : Frame) p = ⟨cols, []⟩ := by
      unfold filterStep; split_ifs <;> rfl
    rw [h1, h2, ih]

/-- Helper: over good frames, updating with a concatenated batch and
updating with its two halves in sequence produce the same observables
(event total, IP sets, maxima). -/
theorem upd_obs_append (parse : String → Option DateTime) (st : Stats) (cols : List String)
    (a b : List CsvRow)
    (hga : goodFrame ⟨cols, a⟩ = true) (hgb : goodFrame ⟨cols, b⟩ = true) :
    obsOf (updateMonthStats parse st ⟨cols, a ++ b⟩)
      = obsOf (updateMonthStats parse (updateMonthStats parse st ⟨cols, a⟩) ⟨cols, b⟩) := by
  have hgab := goodFrame_append cols a b hga hgb
  unfold obsOf
  simp only [Prod.mk.injEq]
  refine ⟨?_, ?_, ?_, ?_, ?_⟩
  · rw [updateMonthStats_total_eq, updateMonthStats_total_eq, updateMonthStats_total_eq]
    dsimp only []
    rw [List.length_append, Nat.add_assoc]
  · rw [updateMonthStats_src_eq, updateMonthStats_src_eq, updateMonthStats_src_eq]
    dsimp only []
    by_cases hc : "Source IP Address" ∈ cols
    · rw [if_pos hc, if_pos hc, if_pos hc, colVals_append, goodStrs_append, insertAll_append]
    · rw [if_neg hc, if_neg hc, if_neg hc]
  · rw [updateMonthStats_dst_eq, updateMonthStats_dst_eq, updateMonthStats_dst_eq]
    dsimp only []
    by_cases hc : "Destination IP Address" ∈ cols
    · rw [if_pos hc, if_pos hc, if_pos hc, colVals_append, goodStrs_append, insertAll_append]
    · rw [if_neg hc, if_neg hc, if_neg hc]
  · rw [updateMonthStats_pps_eq _ _ _ hgb, updateMonthStats_pps_eq _ _ _ hga,
      updateMonthStats_pps_eq _ _ _ hgab, ppsVals_append, List.foldl_append]
  · rw [updateMonthStats_bps_eq _ _ _ hgb, updateMonthStats_bps_eq _ _ _ hga,
      updateMonthStats_bps_eq _ _ _ hgab, bpsVals_append, List.foldl_append]

theorem goodFrame_nilRows (cols : List String) :
    goodFrame ⟨cols, ([] : List CsvRow)⟩ = true := by
  rw [goodFrame, List.all_eq_true]
  intro p hp
  cases hoc : p.1 with
  | none => simp [goodColB, hoc]
  | some c => simp [goodColB, hoc, colVals]

theorem ppsVals_nilRows (cols : List String) : ppsVals ⟨cols, ([] : List CsvRow)⟩ = [] := by
  unfold ppsVals
  dsimp only []
  cases hrv : resolveVariant ppsVariants cols <;> simp [targetVals, hrv, colVals, numericVals]

theorem bpsVals_nilRows (cols : List String) : bpsVals ⟨cols, ([] : List CsvRow)⟩ = [] := by
  unfold bpsVals
  dsimp only []
  cases hrv : resolveVariant bpsVariants cols <;> simp [targetVals, hrv, colVals, numericVals]

/-- Helper: an empty batch leaves every observable unchanged. -/
theorem upd_obs_nilRows (parse : String → Option DateTime) (st : Stats) (cols : List String) :
    obsOf (updateMonthStats parse st ⟨cols, []⟩) = obsOf st := by
  unfold obsOf
  simp only [Prod.mk.injEq]
  refine ⟨?_, ?_, ?_, ?_, ?_⟩
  · rw [updateMonthStats_total_eq]; rfl
  · rw [updateMonthStats_src_eq]
    dsimp only []
    split_ifs <;> rfl
  · rw [updateMonthStats_dst_eq]
    dsimp only []
    split_ifs <;> rfl
  · rw [updateMonthStats_pps_eq _ _ _ (goodFrame_nilRows cols), ppsVals_nilRows]; rfl
  · rw [updateMonthStats_bps_eq _ _ _ (goodFrame_nilRows cols), bpsVals_nilRows]; rfl

/-- Helper: folding the per-chunk filter-then-update pipeline over the
chunk decomposition has the same observables as one update over the
whole (filtered) row list. -/
theorem obs_fold_chunks (parse : String → Option DateTime)
    (filters : List (String × List String)) (cols : List String) (c : Nat) (hc : c ≠ 0) :
    ∀ (n : Nat) (rows : List CsvRow), rows.length = n →
      goodFrame ⟨cols, rows⟩ = true →
      ∀ st : Stats,
        obsOf ((chunksOf c rows).foldl
          (fun s rs => updateMonthStats parse s (applyDataFilters filters ⟨cols, rs⟩)) st)
        = obsOf (updateMonthStats parse st (applyDataFilters filters ⟨cols, rows⟩)) := by
  intro n
  induction n using Nat.strong_induction_on with
  | _ n ih =>
    intro rows hlen hg st
    cases rows with
    | nil =>
      rw [show chunksOf c ([] : List CsvRow) = [] from by simp [chunksOf]]
      rw [applyDataFilters_nilRows]
      exact (upd_obs_nilRows parse st cols).symm
    | cons x rest =>
      rw [show chunksOf c (x :: rest)
          = (x :: rest).take c :: chunksOf c ((x :: rest).drop c) from by
        conv_lhs => unfold chunksOf
        rw [dif_neg hc]]
      rw [List.foldl_cons]
      have hdroplen : ((x :: rest).drop c).length < n := by
        rw [← hlen, List.length_drop]
        have hc1 : 1 ≤ c := Nat.one_le_iff_ne_zero.mpr hc
        simp only [List.length_cons]
        omega
      have hgdrop : goodFrame ⟨cols, (x :: rest).drop c⟩ = true :=
        goodFrame_sub cols (x :: rest) _ (fun r hr => List.drop_subset _ _ hr) hg
      rw [ih _ hdroplen _ rfl hgdrop]
      have hA := applyDataFilters_cols filters ⟨cols, (x :: rest).take c⟩
      have hB := applyDataFilters_cols filters ⟨cols, (x :: rest).drop c⟩
      have hgA : goodFrame
          ⟨cols, (applyDataFilters filters ⟨cols, (x :: rest).take c⟩).rows⟩ = true := by
        refine goodFrame_sub cols (x :: rest) _ ?_ hg
        intro r hr
        exact List.take_subset _ _ (applyDataFilters_rows_sub filters _ r hr)
      have hgB : goodFrame
          ⟨cols, (applyDataFilters filters ⟨cols, (x :: rest).drop c⟩).rows⟩ = true := by
        refine goodFrame_sub cols (x :: rest) _ ?_ hg
        intro r hr
        exact List.drop_subset _ _ (applyDataFilters_rows_sub filters _ r hr)
      have hsplit : applyDataFilters filters ⟨cols, x :: rest⟩
          = ⟨cols, (applyDataFilters filters ⟨cols, (x :: rest).take c⟩).rows
              ++ (applyDataFilters filters ⟨cols, (x :: rest).drop c⟩).rows⟩ := by
        conv_lhs => rw [← List.take_append_drop c (x :: rest)]
        exact applyDataFilters_append filters cols _ _
      rw [hsplit, upd_obs_append parse st cols _ _ hgA hgB,
        frame_eta (applyDataFilters filters ⟨cols, (x :: rest).take c⟩) cols hA,
        frame_eta (applyDataFilters filters ⟨cols, (x :: rest).drop c⟩) cols hB]

/-- C1 (amended): for every input file none of whose tracked numeric
cells passes the digit guard while failing `float()` conversion, every
exclusion-rule configuration, and any two positive chunk sizes C1 ≠ C2,
streaming with chunk size C1 and with chunk size C2 yields the same
final `total_events`, the same unique source/destination-IP sets (hence
counts), and the same finalized maxima `max_pps`, `max_bps`. -/
theorem streamStats_chunk_invariant (parse : String → Option DateTime)
    (filters : List (String × List String)) (c1 c2 : Nat) (f : Frame)
    (hc1 : c1 ≠ 0) (hc2 : c2 ≠ 0) (_hne : c1 ≠ c2) (hg : goodFrame f = true) :
    obsOf (streamStats parse filters c1 f) = obsOf (streamStats parse filters c2 f) := by
  have hgr : goodFrame ⟨f.cols, f.rows⟩ = true := by
    rw [frame_eta f f.cols rfl]
    exact hg
  have h1 := obs_fold_chunks parse filters f.cols c1 hc1 f.rows.length f.rows rfl hgr initStats
  have h2 := obs_fold_chunks parse filters f.cols c2 hc2 f.rows.length f.rows rfl hgr initStats
  unfold streamStats
  exact h1.trans h2.symm

/-- C1 counterexample: a file whose `Total Packets` column contains
`"1.2.3"` (guard-passing, `float()`-failing).  With chunk size 1 the bad
row aborts only its own chunk and the second chunk still raises
`max_pps` to 999; with chunk size 2 both rows share the aborted chunk
and `max_pps` stays 0 — the chunk size is observable in the output,
contradicting the claim. -/
theorem streamStats_chunk_observable :
    (streamStats (fun _ => none) [] 1
        ⟨["Total Packets", "Max pps"],
         [[("Total Packets", some "1.2.3"), ("Max pps", some "100")],
          [("Total Packets", some "5"), ("Max pps", some "999")]]⟩).max_pps = 999 ∧
      (streamStats (fun _ => none) [] 2
        ⟨["Total Packets", "Max pps"],
         [[("Total Packets", some "1.2.3"), ("Max pps", some "100")],
          [("Total Packets", some "5"), ("Max pps", some "999")]]⟩).max_pps = 0 := by
  constructor
  · unfold streamStats
    dsimp only []
    rw [show chunksOf 1 ([[("Total Packets", some "1.2.3"), ("Max pps", some "100")],
          [("Total Packets", some "5"), ("Max pps", some "999")]] : List CsvRow)
        = [[[("Total Packets", some "1.2.3"), ("Max pps", some "100")]],
           [[("Total Packets", some "5"), ("Max pps", some "999")]]] from by simp [chunksOf]]
    decide
  · unfold streamStats
    dsimp only []
    rw [show chunksOf 2 ([[("Total Packets", some "1.2.3"), ("Max pps", some "100")],
          [("Total Packets", some "5"), ("Max pps", some "999")]] : List CsvRow)
        = [[[("Total Packets", some "1.2.3"), ("Max pps", some "100")],
            [("Total Packets", some "5"), ("Max pps", some "999")]]] from by simp [chunksOf]]
    decide

/-- C1 witness: a clean two-row file streamed with chunk sizes 1 and 2
has identical observables, by the theorem. -/
theorem streamStats_chunk_invariant_witness :
    goodFrame ⟨["Max pps"], [[("Max pps", some "100")], [("Max pps", some "999")]]⟩ = true ∧
      obsOf (streamStats (fun _ => none) [] 1
          ⟨["Max pps"], [[("Max pps", some "100")], [("Max pps", some "999")]]⟩)
        = obsOf (streamStats (fun _ => none) [] 2
          ⟨["Max pps"], [[("Max pps", some "100")], [("Max pps", some "999")]]⟩) :=
  ⟨by decide,
   streamStats_chunk_invariant (fun _ => none) [] 1 2
     ⟨["Max pps"], [[("Max pps", some "100")], [("Max pps", some "999")]]⟩
     (by decide) (by decide) (by decide) (by decide)⟩
